import Mathlib

/-!
Verification of the `simple_dep_cache` repository: a shallow embedding of its
operation-context stack (`context.py`), decorator state machine
(`decorators.py`), Redis/fake backends (`redis_backends.py`, `fakes.py`,
`backends.py`), key generation and the exception serializer
(`types.py`, `utils.py`), with theorems settling the specification claims.
-/

namespace SimpleDepCache

/-- A Python exception instance, modelled at the granularity the repository
touches: `mro` is the list of class names of `type(e).__mro__` (head =
`type(e).__name__`), `modName` is `type(e).__module__`, `message` is `str(e)`.
`isinstance(e, T)` is membership of `T`'s name in `mro`. -/
structure PyExc where
  mro : List String
  modName : String
  message : String
deriving DecidableEq, Repr

/-- A Python value as seen by the cache layer.  `vnone` is Python `None`;
`vexc` is an exception instance (cached exceptions are stored values). -/
inductive PyVal where
  | vnone
  | vstr (s : String)
  | vint (n : Int)
  | vbool (b : Bool)
  | vexc (e : PyExc)
deriving DecidableEq, Repr

/-! ## Operation context stack (`context.py`)

The per-frame dependency dict `dict[str | None, set[str]]` is modelled as an
association list with first-match lookup (Python dicts have unique keys; the
operations below preserve dict behaviour for first-match lookup regardless).
Python sets of tags are modelled as lists with membership semantics. -/

/-- The `dependencies` dict of a frame: `{manager_name: set_of_dependencies}`. -/
abbrev DepMap := List (Option String × List String)

/-- First-match association-list lookup (Python `dict.__getitem__`/`get`). -/
def depLookup? : DepMap → Option String → Option (List String)
  | [], _ => none
  | (k, v) :: rest, m => if k = m then some v else depLookup? rest m

/-- Lookup defaulting to the empty set (Python `dict.get(m, set())`). -/
def depLookupD (dm : DepMap) (m : Option String) : List String :=
  (depLookup? dm m).getD []

/-- Set union `v.update(ds)` on the list model (membership semantics). -/
def listUnion (a b : List String) : List String :=
  a ++ b.filter (fun x => decide (x ∉ a))

/-- One merge step of `pop_operation_context`: ensure an entry for `m` exists in
the dict, then union `ds` into it. -/
def depInsertUnion : DepMap → Option String → List String → DepMap
  | [], m, ds => [(m, ds)]
  | (k, v) :: rest, m, ds =>
    if k = m then (k, listUnion v ds) :: rest else (k, v) :: depInsertUnion rest m ds

/-- The merge loop of `pop_operation_context`: union every entry of the popped
frame's dict into the parent's dict, creating missing entries. -/
def mergeDeps (parent popped : DepMap) : DepMap :=
  popped.foldl (fun acc p => depInsertUnion acc p.1 p.2) parent

/-- `set.add` on one entry of the dict, creating the entry when missing
(`add_dependency` in `context.py`). -/
def depAddOne : DepMap → Option String → String → DepMap
  | [], m, d => [(m, [d])]
  | (k, v) :: rest, m, d =>
    if k = m then (k, if v.contains d then v else v ++ [d]) :: rest
    else (k, v) :: depAddOne rest m d

/-- One in-flight cache-operation frame (`CacheOperation` in `context.py`).
The Python dataclass also carries an opaque `cache_manager` object reference
that no stack algorithm reads or branches on; it is not modelled. -/
structure CacheOperation where
  manager_name : Option String
  cache_key : Option String
  dependencies : DepMap
  cache_ttl : Option Int
deriving DecidableEq, Repr

/-- The operation stack.  The HEAD of this Lean list models the END of the
Python list, i.e. the current (top) frame. -/
abbrev CtxStack := List CacheOperation

/-- Python truthiness of a `str | None` (`None` and `""` are falsy). -/
def optStrTruthy : Option String → Bool
  | none => false
  | some s => !s.isEmpty

/-- The frame built by `push_operation_context`, seeded with
`{manager_name: dependencies or set()}` (`None` and the empty set both seed an
empty set). -/
def pushedFrame (manager_name : Option String) (cache_key : Option String)
    (cache_ttl : Option Int) (dependencies : Option (List String)) : CacheOperation :=
  { manager_name := manager_name
    cache_key := cache_key
    dependencies := [(manager_name, dependencies.getD [])]
    cache_ttl := cache_ttl }

/-- `push_operation_context`: a new current frame on the stack. -/
def pushOperationContext (manager_name : Option String) (cache_key : Option String)
    (cache_ttl : Option Int) (dependencies : Option (List String))
    (st : CtxStack) : CtxStack :=
  pushedFrame manager_name cache_key cache_ttl dependencies :: st

/-- `pop_operation_context`: returns the new stack and the popped frame's
dependency dict; on the empty (or unset) stack it is a no-op returning `{}`. -/
def popOperationContext : CtxStack → CtxStack × DepMap
  | [] => ([], [])
  | cur :: rest =>
    match rest with
    | [] => ([], cur.dependencies)
    | parent :: rest' =>
      ({ parent with dependencies := mergeDeps parent.dependencies cur.dependencies } :: rest',
        cur.dependencies)

/-- `add_dependency(dependency, manager=...)`: adds to the current frame's set
for `manager or current_op.manager_name`, no-op without a frame or when the
resolved name is `None`. -/
def addDependency (dependency : String) (manager : Option String) : CtxStack → CtxStack
  | [] => []
  | cur :: rest =>
    match (if optStrTruthy manager then manager else cur.manager_name : Option String) with
    | none => cur :: rest
    | some m =>
      { cur with dependencies := depAddOne cur.dependencies (some m) dependency } :: rest

/-- `set_cache_ttl`: overwrite the current frame's `cache_ttl`, no-op without a
frame. -/
def setCacheTtl (t : Option Int) : CtxStack → CtxStack
  | [] => []
  | cur :: rest => { cur with cache_ttl := t } :: rest

/-- `get_cache_ttl`: the current frame's `cache_ttl`, `None` without a frame. -/
def getCacheTtl : CtxStack → Option Int
  | [] => none
  | cur :: _ => cur.cache_ttl

/-- `get_current_dependencies`: the current frame's set for its own manager
name, empty without a frame or a truthy manager name. -/
def getCurrentDependencies : CtxStack → List String
  | [] => []
  | cur :: _ =>
    if optStrTruthy cur.manager_name then depLookupD cur.dependencies cur.manager_name
    else []

lemma mem_listUnion {x : String} {a b : List String} :
    x ∈ listUnion a b ↔ x ∈ a ∨ x ∈ b := by
  unfold listUnion
  simp only [List.mem_append, List.mem_filter, decide_eq_true_eq]
  constructor
  · rintro (h | ⟨h, -⟩)
    · exact Or.inl h
    · exact Or.inr h
  · intro h
    by_cases hx : x ∈ a
    · exact Or.inl hx
    · rcases h with h | h
      · exact absurd h hx
      · exact Or.inr ⟨h, hx⟩

lemma listUnion_nil (b : List String) : listUnion [] b = b := by
  simp [listUnion]

lemma depLookupD_nil (q : Option String) : depLookupD ([] : DepMap) q = [] := rfl

lemma depLookupD_cons (k : Option String) (v : List String) (rest : DepMap)
    (q : Option String) :
    depLookupD ((k, v) :: rest) q = if k = q then v else depLookupD rest q := by
  by_cases h : k = q <;> simp [depLookupD, depLookup?, h]

lemma depLookupD_depInsertUnion (dm : DepMap) (m : Option String) (ds : List String)
    (q : Option String) :
    depLookupD (depInsertUnion dm m ds) q =
      if q = m then listUnion (depLookupD dm m) ds else depLookupD dm q := by
  induction dm with
  | nil =>
    by_cases h : q = m
    · subst h
      simp [depInsertUnion, depLookupD_cons, depLookupD_nil, listUnion_nil]
    · have h' : ¬m = q := fun hh => h hh.symm
      simp [depInsertUnion, depLookupD_cons, depLookupD_nil, h, h']
  | cons p rest ih =>
    obtain ⟨k, v⟩ := p
    by_cases hk : k = m
    · subst hk
      by_cases hq : k = q
      · subst hq
        simp [depInsertUnion, depLookupD_cons]
      · have hq' : ¬q = k := fun hh => hq hh.symm
        simp [depInsertUnion, depLookupD_cons, hq, hq']
    · by_cases hq : k = q
      · subst hq
        have hkm : ¬k = m := hk
        simp [depInsertUnion, depLookupD_cons, hkm]
      · have hins : depInsertUnion ((k, v) :: rest) m ds =
            (k, v) :: depInsertUnion rest m ds := by
          simp [depInsertUnion, hk]
        by_cases hqm : q = m
        · rw [hins, depLookupD_cons, if_neg hq, ih, if_pos hqm, if_pos hqm,
            depLookupD_cons, if_neg hk]
        · rw [hins, depLookupD_cons, if_neg hq, ih, if_neg hqm, if_neg hqm,
            depLookupD_cons, if_neg hq]

lemma depLookup?_eq_none_of_not_mem_keys (dm : DepMap) (q : Option String)
    (h : q ∉ dm.map Prod.fst) : depLookup? dm q = none := by
  induction dm with
  | nil => rfl
  | cons p rest ih =>
    obtain ⟨k, v⟩ := p
    simp only [List.map_cons, List.mem_cons] at h
    push_neg at h
    have hk : ¬k = q := fun hh => h.1 hh.symm
    simp [depLookup?, hk, ih h.2]

lemma mem_mergeDeps (popped : DepMap) (parent : DepMap) (q : Option String) (x : String)
    (h : (popped.map Prod.fst).Nodup) :
    x ∈ depLookupD (mergeDeps parent popped) q ↔
      x ∈ depLookupD parent q ∨ x ∈ depLookupD popped q := by
  induction popped generalizing parent with
  | nil => simp [mergeDeps, depLookupD_nil]
  | cons p rest ih =>
    obtain ⟨m, ds⟩ := p
    simp only [List.map_cons, List.nodup_cons] at h
    have hmerge : mergeDeps parent ((m, ds) :: rest) =
        mergeDeps (depInsertUnion parent m ds) rest := rfl
    rw [hmerge, ih _ h.2, depLookupD_depInsertUnion]
    by_cases hq : q = m
    · subst hq
      have hrest : depLookup? rest q = none :=
        depLookup?_eq_none_of_not_mem_keys _ _ h.1
      have hrest' : depLookupD rest q = [] := by
        unfold depLookupD
        rw [hrest]
        rfl
      have hcons : depLookupD ((q, ds) :: rest) q = ds := by
        rw [depLookupD_cons, if_pos rfl]
      rw [if_pos rfl, hcons, hrest', mem_listUnion]
      constructor
      · rintro ((ha | hb) | hc)
        · exact Or.inl ha
        · exact Or.inr hb
        · exact absurd hc (List.not_mem_nil x)
      · rintro (ha | hb)
        · exact Or.inl (Or.inl ha)
        · exact Or.inl (Or.inr hb)
    · have hq' : ¬m = q := fun hh => hq hh.symm
      rw [if_neg hq, depLookupD_cons, if_neg hq']

/-- C4: `pop_operation_context` removes the top frame, unions each entry of the
popped frame's dependency dict into the new top frame's dict (creating missing
entries), and returns the popped dict; on the empty stack it is a no-op
returning `{}`.  (The popped frame's dict has unique keys, as every Python
dict does.) -/
theorem c4_pop_merges_and_returns :
    popOperationContext ([] : CtxStack) = ([], []) ∧
    (∀ cur : CacheOperation, popOperationContext [cur] = ([], cur.dependencies)) ∧
    (∀ (cur parent : CacheOperation) (rest : CtxStack),
      (cur.dependencies.map Prod.fst).Nodup →
      (popOperationContext (cur :: parent :: rest)).2 = cur.dependencies ∧
      ∃ parent',
        (popOperationContext (cur :: parent :: rest)).1 = parent' :: rest ∧
        parent'.manager_name = parent.manager_name ∧
        parent'.cache_key = parent.cache_key ∧
        parent'.cache_ttl = parent.cache_ttl ∧
        ∀ (m : Option String) (x : String),
          x ∈ depLookupD parent'.dependencies m ↔
            x ∈ depLookupD parent.dependencies m ∨ x ∈ depLookupD cur.dependencies m) := by
  refine ⟨rfl, fun cur => rfl, fun cur parent rest h => ⟨rfl, ?_⟩⟩
  refine ⟨{ parent with dependencies := mergeDeps parent.dependencies cur.dependencies },
    rfl, rfl, rfl, rfl, fun m x => ?_⟩
  exact mem_mergeDeps cur.dependencies parent.dependencies m x h

/-- Concrete instantiation of the hypothesis-bearing part of
`c4_pop_merges_and_returns`. -/
theorem c4_pop_merges_and_returns_witness :
    (popOperationContext
        [⟨some "m", some "k", [(some "m", ["i"]), (none, ["z"])], none⟩,
         ⟨some "m", some "o", [(some "m", ["o1"])], some 5⟩]).2 =
      [(some "m", ["i"]), (none, ["z"])] ∧
    ∃ parent',
      (popOperationContext
          [⟨some "m", some "k", [(some "m", ["i"]), (none, ["z"])], none⟩,
           ⟨some "m", some "o", [(some "m", ["o1"])], some 5⟩]).1 = parent' :: [] ∧
      parent'.manager_name = some "m" ∧
      parent'.cache_key = some "o" ∧
      parent'.cache_ttl = some 5 ∧
      ∀ (m : Option String) (x : String),
        x ∈ depLookupD parent'.dependencies m ↔
          x ∈ depLookupD [(some "m", ["o1"])] m ∨
          x ∈ depLookupD [(some "m", ["i"]), (none, ["z"])] m :=
  c4_pop_merges_and_returns.2.2
    ⟨some "m", some "k", [(some "m", ["i"]), (none, ["z"])], none⟩
    ⟨some "m", some "o", [(some "m", ["o1"])], some 5⟩ [] (by decide)

/-! ## Context effects of a wrapped function body

A decorated function's body interacts with the stack through `set_cache_ttl`
and `add_dependency` on the current frame, and through nested decorated calls,
each of which is a balanced `push_operation_context` … `pop_operation_context`
pair around its own body's effects. -/

mutual
/-- One context-affecting action performed by the wrapped function body. -/
inductive BodyOp where
  | setTtl (t : Option Int)
  | addDep (tag : String) (mgr : Option String)
  | nested (mn : Option String) (ck : Option String) (ttl : Option Int)
      (deps : Option (List String)) (inner : BodyOps)
/-- A sequence of body actions. -/
inductive BodyOps where
  | nil
  | cons (op : BodyOp) (ops : BodyOps)
end

mutual
/-- Run one body action against the stack (a nested decorated call is a push,
its inner actions, then a pop). -/
def applyBodyOp : BodyOp → CtxStack → CtxStack
  | .setTtl t, st => setCacheTtl t st
  | .addDep tag mgr, st => addDependency tag mgr st
  | .nested mn ck ttl deps inner, st =>
    (popOperationContext (applyBodyOps inner (pushOperationContext mn ck ttl deps st))).1
/-- Run a sequence of body actions against the stack. -/
def applyBodyOps : BodyOps → CtxStack → CtxStack
  | .nil, st => st
  | .cons op ops, st => applyBodyOps ops (applyBodyOp op st)
end

mutual
/-- The effect of one body action on the current frame alone. -/
def applyOpTop : BodyOp → CacheOperation → CacheOperation
  | .setTtl t, f => { f with cache_ttl := t }
  | .addDep tag mgr, f =>
    match (if optStrTruthy mgr then mgr else f.manager_name : Option String) with
    | none => f
    | some m => { f with dependencies := depAddOne f.dependencies (some m) tag }
  | .nested mn ck ttl deps inner, f =>
    { f with dependencies :=
        mergeDeps f.dependencies (applyOpsTop inner (pushedFrame mn ck ttl deps)).dependencies }
/-- The effect of a sequence of body actions on the current frame alone. -/
def applyOpsTop : BodyOps → CacheOperation → CacheOperation
  | .nil, f => f
  | .cons op ops, f => applyOpsTop ops (applyOpTop op f)
end

/-- The value of the last top-level `set_cache_ttl` call of one action, if
any.  A nested decorated call's `set_cache_ttl` acts on the nested frame, not
this one. -/
def lastSetTtlOp : BodyOp → Option (Option Int)
  | .setTtl t => some t
  | _ => none

/-- The value of the last top-level `set_cache_ttl` call of a sequence. -/
def lastSetTtl : BodyOps → Option (Option Int)
  | .nil => none
  | .cons op ops => (lastSetTtl ops).orElse (fun _ => lastSetTtlOp op)

mutual
theorem applyBodyOp_cons (op : BodyOp) (f : CacheOperation) (rest : CtxStack) :
    applyBodyOp op (f :: rest) = applyOpTop op f :: rest := by
  cases op with
  | setTtl t => rfl
  | addDep tag mgr =>
    show addDependency tag mgr (f :: rest) = _ :: rest
    cases hh : (if optStrTruthy mgr then mgr else f.manager_name : Option String) with
    | none => simp [addDependency, applyOpTop, hh]
    | some m => simp [addDependency, applyOpTop, hh]
  | nested mn ck ttl deps inner =>
    show (popOperationContext
        (applyBodyOps inner (pushOperationContext mn ck ttl deps (f :: rest)))).1 = _ :: rest
    rw [show pushOperationContext mn ck ttl deps (f :: rest) =
        pushedFrame mn ck ttl deps :: f :: rest from rfl,
      applyBodyOps_cons inner (pushedFrame mn ck ttl deps) (f :: rest)]
    rfl
theorem applyBodyOps_cons (ops : BodyOps) (f : CacheOperation) (rest : CtxStack) :
    applyBodyOps ops (f :: rest) = applyOpsTop ops f :: rest := by
  cases ops with
  | nil => rfl
  | cons op ops =>
    show applyBodyOps ops (applyBodyOp op (f :: rest)) = _ :: rest
    rw [applyBodyOp_cons op f rest, applyBodyOps_cons ops (applyOpTop op f) rest]
    rfl
end

mutual
theorem applyOpTop_ttl (op : BodyOp) (f : CacheOperation) :
    (applyOpTop op f).cache_ttl = (lastSetTtlOp op).getD f.cache_ttl := by
  cases op with
  | setTtl t => rfl
  | addDep tag mgr =>
    cases hh : (if optStrTruthy mgr then mgr else f.manager_name : Option String) with
    | none => simp [applyOpTop, lastSetTtlOp, hh]
    | some m => simp [applyOpTop, lastSetTtlOp, hh]
  | nested mn ck ttl deps inner => rfl
theorem applyOpsTop_ttl (ops : BodyOps) (f : CacheOperation) :
    (applyOpsTop ops f).cache_ttl = (lastSetTtl ops).getD f.cache_ttl := by
  cases ops with
  | nil => rfl
  | cons op ops =>
    show (applyOpsTop ops (applyOpTop op f)).cache_ttl = _
    rw [applyOpsTop_ttl ops (applyOpTop op f), applyOpTop_ttl op f]
    cases hh : lastSetTtl ops with
    | none => simp [lastSetTtl, hh, Option.orElse]
    | some t => simp [lastSetTtl, hh, Option.orElse]
end

mutual
theorem applyOpTop_name (op : BodyOp) (f : CacheOperation) :
    (applyOpTop op f).manager_name = f.manager_name ∧
    (applyOpTop op f).cache_key = f.cache_key := by
  cases op with
  | setTtl t => exact ⟨rfl, rfl⟩
  | addDep tag mgr =>
    cases hh : (if optStrTruthy mgr then mgr else f.manager_name : Option String) with
    | none => simp [applyOpTop, hh]
    | some m => simp [applyOpTop, hh]
  | nested mn ck ttl deps inner => exact ⟨rfl, rfl⟩
theorem applyOpsTop_name (ops : BodyOps) (f : CacheOperation) :
    (applyOpsTop ops f).manager_name = f.manager_name ∧
    (applyOpsTop ops f).cache_key = f.cache_key := by
  cases ops with
  | nil => exact ⟨rfl, rfl⟩
  | cons op ops =>
    show (applyOpsTop ops (applyOpTop op f)).manager_name = _ ∧
      (applyOpsTop ops (applyOpTop op f)).cache_key = _
    have h1 := applyOpsTop_name ops (applyOpTop op f)
    have h2 := applyOpTop_name op f
    exact ⟨h1.1.trans h2.1, h1.2.trans h2.2⟩
end

/-! ## Decorator state machine (`decorators.py`, `sync_wrapper`)

The wrapper is modelled as a function of the decorator configuration, the
behaviour of the backend and of the wrapped function on this call (injected
through `SyncEnv`), and the operation-context stack.  The model covers the
enabled-manager path; a disabled manager short-circuits before any modelled
state is touched. -/

/-- `isinstance(e, T)` for an exception type name `T`. -/
def pyIsInstance (e : PyExc) (t : String) : Bool :=
  e.mro.contains t

/-- `_should_cache_exception`: `bool(cache_exception_types) and
any(isinstance(exc, t) ...)`. -/
def shouldCacheException (e : PyExc) (types : Option (List String)) : Bool :=
  match types with
  | none => false
  | some ts => !ts.isEmpty && ts.any (fun t => pyIsInstance e t)

/-- Outcome of executing the wrapped function once. -/
inductive FuncOutcome where
  | ret (v : PyVal)
  | raises (e : PyExc)
deriving DecidableEq, Repr

/-- `return result` / `raise exception` at the end of the wrapper. -/
def funcOutcomeExcept : FuncOutcome → Except PyExc PyVal
  | .ret v => .ok v
  | .raises e => .error e

/-- Decorator configuration (`cache_with_deps` keyword arguments), after
manager resolution and callback validation: `hasCallback` is
`valid_callback is not None`. -/
structure SyncCfg where
  managerName : Option String
  staticTtl : Option Int
  staticDeps : Option (List String)
  cacheExceptionTypes : Option (List String)
  hasCallback : Bool
  silentBackendErrors : Bool
deriving DecidableEq, Repr

/-- The behaviour of the external collaborators during one wrapper call:
the backend lookup (`cache_manager.get`), the wrapped function (its context
actions and its outcome), the backend persist (`cache_manager.set`, consulted
only when a set is attempted), and whether the observer callback raises. -/
structure SyncEnv where
  lookupOutcome : Except PyExc PyVal
  bodyOps : BodyOps
  funcOutcome : FuncOutcome
  persistOutcome : Except PyExc Unit
  hitCallbackRaises : Bool
  missCallbackRaises : Bool

/-- Observable result of one wrapper call: what the caller sees, the final
stack, whether the wrapped function ran, the successfully persisted
`(value, ttl, dependencies)` payload if any, and which callbacks were
invoked (callback exceptions are always caught, so invocation is independent
of `hitCallbackRaises`/`missCallbackRaises`). -/
structure SyncResult where
  outcome : Except PyExc PyVal
  stack : CtxStack
  funcExecuted : Bool
  persisted : Option (PyVal × Option Int × List String)
  hitCallbackRan : Bool
  missCallbackRan : Bool
deriving Repr

/-- The miss path of `sync_wrapper`: push a frame, run the body, then in the
`finally` block read the frame's dependencies and TTL, attempt the cache set
(`_safe_backend_op`: a backend error re-raises unless silenced), invoke the
miss callback, pop the frame, and return or re-raise the function outcome.
A non-silent persist error is raised from inside the `finally` block, so the
callback and the `_restore_context()` pop after it never run. -/
def syncMissPath (cfg : SyncCfg) (env : SyncEnv) (cacheKey : String)
    (st : CtxStack) : SyncResult :=
  let st2 := applyBodyOps env.bodyOps
    (pushOperationContext cfg.managerName (some cacheKey) cfg.staticTtl cfg.staticDeps st)
  let deps := getCurrentDependencies st2
  let ttl := getCacheTtl st2
  let attempt : Option PyVal :=
    match env.funcOutcome with
    | .ret v => some v
    | .raises e =>
      if shouldCacheException e cfg.cacheExceptionTypes then some (.vexc e) else none
  match attempt, env.persistOutcome with
  | some pv, .ok _ =>
    { outcome := funcOutcomeExcept env.funcOutcome
      stack := (popOperationContext st2).1
      funcExecuted := true
      persisted := some (pv, ttl, deps)
      hitCallbackRan := false
      missCallbackRan := cfg.hasCallback }
  | some _, .error e2 =>
    if cfg.silentBackendErrors then
      { outcome := funcOutcomeExcept env.funcOutcome
        stack := (popOperationContext st2).1
        funcExecuted := true
        persisted := none
        hitCallbackRan := false
        missCallbackRan := cfg.hasCallback }
    else
      { outcome := .error e2
        stack := st2
        funcExecuted := true
        persisted := none
        hitCallbackRan := false
        missCallbackRan := false }
  | none, _ =>
    { outcome := funcOutcomeExcept env.funcOutcome
      stack := (popOperationContext st2).1
      funcExecuted := true
      persisted := none
      hitCallbackRan := false
      missCallbackRan := cfg.hasCallback }

/-- `sync_wrapper`: lookup (with `_safe_backend_op`), then the hit path
(`cached_result is not None`: a cached exception is re-raised by
`_handle_cache_hit` before the callback line is reached; any other value is
returned after the hit callback) or the miss path. -/
def syncWrapper (cfg : SyncCfg) (env : SyncEnv) (cacheKey : String)
    (st : CtxStack) : SyncResult :=
  match env.lookupOutcome with
  | .error e =>
    if cfg.silentBackendErrors then syncMissPath cfg env cacheKey st
    else
      { outcome := .error e, stack := st, funcExecuted := false, persisted := none
        hitCallbackRan := false, missCallbackRan := false }
  | .ok v =>
    match v with
    | .vnone => syncMissPath cfg env cacheKey st
    | .vexc e =>
      { outcome := .error e, stack := st, funcExecuted := false, persisted := none
        hitCallbackRan := false, missCallbackRan := false }
    | v =>
      { outcome := .ok v, stack := st, funcExecuted := false, persisted := none
        hitCallbackRan := cfg.hasCallback, missCallbackRan := false }

lemma applyBodyOps_push (ops : BodyOps) (mn ck : Option String) (ttl : Option Int)
    (deps : Option (List String)) (st : CtxStack) :
    applyBodyOps ops (pushOperationContext mn ck ttl deps st) =
      applyOpsTop ops (pushedFrame mn ck ttl deps) :: st :=
  applyBodyOps_cons ops (pushedFrame mn ck ttl deps) st

lemma getCacheTtl_applyBodyOps_push (ops : BodyOps) (mn ck : Option String)
    (ttl : Option Int) (deps : Option (List String)) (st : CtxStack) :
    getCacheTtl (applyBodyOps ops (pushOperationContext mn ck ttl deps st)) =
      (lastSetTtl ops).getD ttl := by
  rw [applyBodyOps_push]
  show (applyOpsTop ops (pushedFrame mn ck ttl deps)).cache_ttl = _
  rw [applyOpsTop_ttl]
  rfl

lemma popOperationContext_fst_length (f : CacheOperation) (st : CtxStack) :
    ((popOperationContext (f :: st)).1).length = st.length := by
  cases st with
  | nil => rfl
  | cons parent rest => rfl

lemma pyIsInstance_iff (e : PyExc) (t : String) :
    pyIsInstance e t = true ↔ t ∈ e.mro := by
  simp [pyIsInstance]

lemma shouldCacheException_iff (e : PyExc) (o : Option (List String)) :
    shouldCacheException e o = true ↔ ∃ ts, o = some ts ∧ ∃ t ∈ ts, t ∈ e.mro := by
  cases o with
  | none => simp [shouldCacheException]
  | some ts =>
    simp only [shouldCacheException, Bool.and_eq_true, Bool.not_eq_true',
      List.any_eq_true, pyIsInstance_iff, Option.some.injEq]
    constructor
    · rintro ⟨-, t, ht, hm⟩
      exact ⟨ts, rfl, t, ht, hm⟩
    · rintro ⟨ts', hts, t, ht, hm⟩
      subst hts
      refine ⟨?_, t, ht, hm⟩
      rcases hempty : ts.isEmpty with _ | _
      · rfl
      · rw [List.isEmpty_iff] at hempty
        subst hempty
        cases ht

/-- C3 (amended): on a lookup that finds a present cached value, no frame is
pushed, the wrapped function is not executed and nothing is persisted; a
cached exception is re-raised WITHOUT invoking the observer callback (it is
raised by `_handle_cache_hit` before the callback line), while any other value
is returned after invoking the callback with `is_hit=true` and the value. -/
theorem c3_hit_path (cfg : SyncCfg) (env : SyncEnv) (key : String) (st : CtxStack)
    (v : PyVal) (hlk : env.lookupOutcome = .ok v) (hv : v ≠ .vnone) :
    (syncWrapper cfg env key st).stack = st ∧
    (syncWrapper cfg env key st).funcExecuted = false ∧
    (syncWrapper cfg env key st).persisted = none ∧
    (syncWrapper cfg env key st).missCallbackRan = false ∧
    (∀ e, v = .vexc e →
      (syncWrapper cfg env key st).outcome = .error e ∧
      (syncWrapper cfg env key st).hitCallbackRan = false) ∧
    ((∀ e, v ≠ .vexc e) →
      (syncWrapper cfg env key st).outcome = .ok v ∧
      (syncWrapper cfg env key st).hitCallbackRan = cfg.hasCallback) := by
  cases v with
  | vnone => exact absurd rfl hv
  | vexc e =>
    refine ⟨?_, ?_, ?_, ?_, ?_, ?_⟩ <;>
      simp [syncWrapper, hlk]
  | vstr s =>
    refine ⟨?_, ?_, ?_, ?_, ?_, ?_⟩ <;>
      simp [syncWrapper, hlk]
  | vint n =>
    refine ⟨?_, ?_, ?_, ?_, ?_, ?_⟩ <;>
      simp [syncWrapper, hlk]
  | vbool b =>
    refine ⟨?_, ?_, ?_, ?_, ?_, ?_⟩ <;>
      simp [syncWrapper, hlk]

/-- Concrete instantiation of `c3_hit_path` at a non-exception hit. -/
theorem c3_hit_path_witness :
    (syncWrapper ⟨some "m", none, none, none, true, false⟩
        ⟨.ok (.vint 10), .nil, .ret (.vint 10), .ok (), false, false⟩ "k" []).stack = [] ∧
    (syncWrapper ⟨some "m", none, none, none, true, false⟩
        ⟨.ok (.vint 10), .nil, .ret (.vint 10), .ok (), false, false⟩ "k" []).funcExecuted
      = false ∧
    (syncWrapper ⟨some "m", none, none, none, true, false⟩
        ⟨.ok (.vint 10), .nil, .ret (.vint 10), .ok (), false, false⟩ "k" []).persisted
      = none ∧
    (syncWrapper ⟨some "m", none, none, none, true, false⟩
        ⟨.ok (.vint 10), .nil, .ret (.vint 10), .ok (), false, false⟩ "k" []).missCallbackRan
      = false ∧
    (∀ e, PyVal.vint 10 = PyVal.vexc e →
      (syncWrapper ⟨some "m", none, none, none, true, false⟩
          ⟨.ok (.vint 10), .nil, .ret (.vint 10), .ok (), false, false⟩ "k" []).outcome
        = .error e ∧
      (syncWrapper ⟨some "m", none, none, none, true, false⟩
          ⟨.ok (.vint 10), .nil, .ret (.vint 10), .ok (), false, false⟩ "k" []).hitCallbackRan
        = false) ∧
    ((∀ e, PyVal.vint 10 ≠ PyVal.vexc e) →
      (syncWrapper ⟨some "m", none, none, none, true, false⟩
          ⟨.ok (.vint 10), .nil, .ret (.vint 10), .ok (), false, false⟩ "k" []).outcome
        = .ok (.vint 10) ∧
      (syncWrapper ⟨some "m", none, none, none, true, false⟩
          ⟨.ok (.vint 10), .nil, .ret (.vint 10), .ok (), false, false⟩ "k" []).hitCallbackRan
        = true) :=
  c3_hit_path ⟨some "m", none, none, none, true, false⟩
    ⟨.ok (.vint 10), .nil, .ret (.vint 10), .ok (), false, false⟩ "k" [] (.vint 10)
    rfl (by decide)

/-- The exception stored for the C3 counterexample. -/
def c3exc : PyExc :=
  ⟨["ValueError", "Exception", "BaseException", "object"], "builtins", "boom"⟩

/-- C3 (counterexample): with a callback configured and a cached exception
found by the lookup, the wrapper re-raises the exception but the observer
callback is NOT invoked, contradicting the claim that the callback is invoked
with `is_hit=true` in both hit cases. -/
theorem c3_counterexample :
    (⟨some "m", none, none, none, true, false⟩ : SyncCfg).hasCallback = true ∧
    (syncWrapper ⟨some "m", none, none, none, true, false⟩
        ⟨.ok (.vexc c3exc), .nil, .ret .vnone, .ok (), false, false⟩ "k" []).outcome
      = .error c3exc ∧
    (syncWrapper ⟨some "m", none, none, none, true, false⟩
        ⟨.ok (.vexc c3exc), .nil, .ret .vnone, .ok (), false, false⟩ "k" []).hitCallbackRan
      = false :=
  ⟨rfl, rfl, rfl⟩

/-- C5: on a miss whose function call returns and whose persist succeeds, the
TTL stored with the persisted value is the value of the last `set_cache_ttl`
call acting on this call's frame if one was made, else the decorator's static
`ttl` (which is `None`, i.e. no expiry, when not configured). -/
theorem c5_ttl_precedence (cfg : SyncCfg) (env : SyncEnv) (key : String) (st : CtxStack)
    (v : PyVal) (hlk : env.lookupOutcome = .ok .vnone)
    (hf : env.funcOutcome = .ret v) (hp : env.persistOutcome = .ok ()) :
    ∃ deps, (syncWrapper cfg env key st).persisted =
      some (v, (lastSetTtl env.bodyOps).getD cfg.staticTtl, deps) := by
  refine ⟨getCurrentDependencies (applyBodyOps env.bodyOps
    (pushOperationContext cfg.managerName (some key) cfg.staticTtl cfg.staticDeps st)), ?_⟩
  have httl := getCacheTtl_applyBodyOps_push env.bodyOps cfg.managerName (some key)
    cfg.staticTtl cfg.staticDeps st
  simp [syncWrapper, hlk, syncMissPath, hf, hp, httl]

/-- Concrete instantiation of `c5_ttl_precedence`: static `ttl=100`, body calls
`set_cache_ttl(300)`, the stored TTL is 300. -/
theorem c5_ttl_precedence_witness :
    ∃ deps,
      (syncWrapper ⟨some "m", some 100, none, none, false, false⟩
        ⟨.ok .vnone, .cons (.setTtl (some 300)) .nil, .ret (.vint 7), .ok (), false, false⟩
        "k" []).persisted =
      some (.vint 7,
        (lastSetTtl (.cons (.setTtl (some 300)) .nil)).getD (some 100), deps) :=
  c5_ttl_precedence ⟨some "m", some 100, none, none, false, false⟩
    ⟨.ok .vnone, .cons (.setTtl (some 300)) .nil, .ret (.vint 7), .ok (), false, false⟩
    "k" [] (.vint 7) rfl rfl rfl

/-- C6 (amended): on a miss whose function call raises `e` and whose persist
call (when attempted) succeeds, the exception is re-raised to the caller, and
it is persisted if and only if `cacheable_exception_kinds` is a non-empty set
containing a type that `e` is an instance of — `isinstance` semantics, so
membership of SOME ancestor in `e`'s MRO suffices, not only the runtime type;
unset or empty set means the exception is never cached. -/
theorem c6_exception_caching (cfg : SyncCfg) (env : SyncEnv) (key : String)
    (st : CtxStack) (e : PyExc) (hlk : env.lookupOutcome = .ok .vnone)
    (hf : env.funcOutcome = .raises e) (hp : env.persistOutcome = .ok ()) :
    (syncWrapper cfg env key st).outcome = .error e ∧
    ((syncWrapper cfg env key st).persisted.isSome = true ↔
      ∃ ts, cfg.cacheExceptionTypes = some ts ∧ ∃ t ∈ ts, t ∈ e.mro) := by
  rw [← shouldCacheException_iff]
  by_cases hsc : shouldCacheException e cfg.cacheExceptionTypes = true
  · constructor
    · simp [syncWrapper, hlk, syncMissPath, hf, hp, hsc, funcOutcomeExcept]
    · simp [syncWrapper, hlk, syncMissPath, hf, hp, hsc]
  · constructor
    · simp [syncWrapper, hlk, syncMissPath, hf, hp, hsc, funcOutcomeExcept]
    · simp [syncWrapper, hlk, syncMissPath, hf, hp, hsc]

/-- A plain `ValueError` instance for the C6 witness. -/
def c6exc : PyExc :=
  ⟨["ValueError", "Exception", "BaseException", "object"], "builtins", "bad value"⟩

/-- Concrete instantiation of `c6_exception_caching`. -/
theorem c6_exception_caching_witness :
    (syncWrapper ⟨some "m", none, none, some ["ValueError"], false, false⟩
        ⟨.ok .vnone, .nil, .raises c6exc, .ok (), false, false⟩ "k" []).outcome
      = .error c6exc ∧
    ((syncWrapper ⟨some "m", none, none, some ["ValueError"], false, false⟩
        ⟨.ok .vnone, .nil, .raises c6exc, .ok (), false, false⟩ "k" []).persisted.isSome
      = true ↔
      ∃ ts, (⟨some "m", none, none, some ["ValueError"], false, false⟩ :
          SyncCfg).cacheExceptionTypes = some ts ∧ ∃ t ∈ ts, t ∈ c6exc.mro) :=
  c6_exception_caching ⟨some "m", none, none, some ["ValueError"], false, false⟩
    ⟨.ok .vnone, .nil, .raises c6exc, .ok (), false, false⟩ "k" [] c6exc rfl rfl rfl

/-- A subclass instance: runtime type `CustomError`, a subclass of
`ValueError`. -/
def c6subExc : PyExc :=
  ⟨["CustomError", "ValueError", "Exception", "BaseException", "object"], "tests", "Custom error"⟩

/-- C6 (counterexample): with `cacheable_exception_kinds = {ValueError}` and a
raised `CustomError` (a `ValueError` subclass), the exception IS persisted even
though its runtime type `CustomError` is not a member of the configured set —
`_should_cache_exception` uses `isinstance`, not runtime-type membership. -/
theorem c6_counterexample :
    (syncWrapper ⟨some "m", none, none, some ["ValueError"], false, false⟩
        ⟨.ok .vnone, .nil, .raises c6subExc, .ok (), false, false⟩ "k" []).persisted.isSome
      = true ∧
    c6subExc.mro.head? = some "CustomError" ∧
    "CustomError" ∉ (["ValueError"] : List String) := by
  refine ⟨?_, rfl, by decide⟩
  rfl

/-- The backend exception for the C2 demonstration. -/
def c2backendExc : PyExc :=
  ⟨["ConnectionError", "OSError", "Exception", "BaseException", "object"], "builtins",
    "Redis connection failed"⟩

/-- The application exception for the C2 demonstration. -/
def c2appExc : PyExc :=
  ⟨["RuntimeError", "Exception", "BaseException", "object"], "builtins", "app failure"⟩

/-- C2: the frame pushed by the miss path is popped before the wrapper
returns on function success, function exception, silenced persist error and
callback error — but NOT on a backend persist error with
`silent_backend_errors=false`: there the bare `raise` in
`_handle_backend_error` propagates from inside the `finally` block before
`_restore_context()` is reached, the frame leaks (stack depth grows by one)
and the backend error replaces the caller-visible outcome. -/
theorem c2_frame_pop_outcomes :
    (syncWrapper ⟨some "m", none, none, none, true, false⟩
      ⟨.ok .vnone, .nil, .ret (.vint 1), .ok (), false, false⟩ "k" []).stack.length = 0 ∧
    (syncWrapper ⟨some "m", none, none, none, true, false⟩
      ⟨.ok .vnone, .nil, .raises c2appExc, .ok (), false, false⟩ "k" []).stack.length = 0 ∧
    (syncWrapper ⟨some "m", none, none, none, true, false⟩
      ⟨.ok .vnone, .nil, .ret (.vint 1), .ok (), false, true⟩ "k" []).stack.length = 0 ∧
    (syncWrapper ⟨some "m", none, none, none, true, true⟩
      ⟨.ok .vnone, .nil, .ret (.vint 1), .error c2backendExc, false, false⟩
      "k" []).stack.length = 0 ∧
    (syncWrapper ⟨some "m", none, none, none, true, false⟩
      ⟨.ok .vnone, .nil, .ret (.vint 1), .error c2backendExc, false, false⟩
      "k" []).stack.length = 1 ∧
    (syncWrapper ⟨some "m", none, none, none, true, false⟩
      ⟨.ok .vnone, .nil, .ret (.vint 1), .error c2backendExc, false, false⟩
      "k" []).outcome = .error c2backendExc :=
  ⟨rfl, rfl, rfl, rfl, rfl, rfl⟩

/-! ## Fake backend (`fakes.py`)

`FakeCacheBackend` keeps two separate dicts, `_cache` and `_dependencies`.
Keys are modelled raw: for a fixed prefix, `key ↦ "{prefix}:{key}"` is
injective and the two dicts are disjoint stores, so prefixing is a bijective
renaming with no effect on any property below. -/

/-- First-match association-list lookup (Python `dict` access). -/
def alookup {α β : Type} [DecidableEq α] : List (α × β) → α → Option β
  | [], _ => none
  | (a, b) :: rest, k => if a = k then some b else alookup rest k

/-- Insert-or-update (Python `dict.__setitem__`). -/
def aupsert {α β : Type} [DecidableEq α] : List (α × β) → α → β → List (α × β)
  | [], k, v => [(k, v)]
  | (a, b) :: rest, k, v => if a = k then (k, v) :: rest else (a, b) :: aupsert rest k v

/-- Key removal (Python `del d[k]`, first occurrence). -/
def aremove {α β : Type} [DecidableEq α] : List (α × β) → α → List (α × β)
  | [], _ => []
  | (a, b) :: rest, k => if a = k then rest else (a, b) :: aremove rest k

lemma alookup_aupsert_self {α β : Type} [DecidableEq α] (l : List (α × β)) (k : α) (v : β) :
    alookup (aupsert l k v) k = some v := by
  induction l with
  | nil => simp [aupsert, alookup]
  | cons p rest ih =>
    obtain ⟨a, b⟩ := p
    by_cases h : a = k
    · simp [aupsert, alookup, h]
    · simp [aupsert, alookup, h, ih]

lemma alookup_aupsert_ne {α β : Type} [DecidableEq α] (l : List (α × β)) (k k' : α) (v : β)
    (h : k ≠ k') : alookup (aupsert l k v) k' = alookup l k' := by
  induction l with
  | nil => simp [aupsert, alookup, h]
  | cons p rest ih =>
    obtain ⟨a, b⟩ := p
    by_cases ha : a = k
    · subst ha
      simp [aupsert, alookup, h, ih]
    · simp [aupsert, alookup, ha, ih]

lemma alookup_aremove_ne {α β : Type} [DecidableEq α] (l : List (α × β)) (k k' : α)
    (h : k ≠ k') : alookup (aremove l k) k' = alookup l k' := by
  induction l with
  | nil => rfl
  | cons p rest ih =>
    obtain ⟨a, b⟩ := p
    by_cases ha : a = k
    · subst ha
      have : ¬a = k' := h
      simp [aremove, alookup, this]
    · simp [aremove, alookup, ha, ih]

/-- In-memory state of `FakeCacheBackend`: `_cache` and `_dependencies`. -/
structure FakeStore where
  cache : List (String × PyVal)
  depsIdx : List (String × List String)
deriving Repr

/-- `FakeCacheBackend.get`: `self._cache.get(cache_key)` — an absent key and a
stored `None` are indistinguishable, both give Python `None`. -/
def fakeGet (fs : FakeStore) (key : String) : PyVal :=
  (alookup fs.cache key).getD .vnone

/-- `FakeCacheBackend.set`: store the value (TTL is ignored by the fake) and
add the cache key to each dependency's member set. -/
def fakeSet (fs : FakeStore) (key : String) (v : PyVal) (deps : List String) : FakeStore :=
  { cache := aupsert fs.cache key v
    depsIdx := deps.foldl (fun acc dep =>
      let cur := (alookup acc dep).getD []
      aupsert acc dep (if cur.contains key then cur else cur ++ [key])) fs.depsIdx }

/-- The deletion loop of `FakeCacheBackend.invalidate_dependency`: delete each
member present in `_cache`, counting the deletions. -/
def fakeDelLoop : List String → List (String × PyVal) → List (String × PyVal) × Nat
  | [], c => (c, 0)
  | k :: rest, c =>
    if (alookup c k).isSome then
      let r := fakeDelLoop rest (aremove c k)
      (r.1, r.2 + 1)
    else fakeDelLoop rest c

/-- `FakeCacheBackend.invalidate_dependency`. -/
def fakeInvalidate (fs : FakeStore) (dependency : String) : FakeStore × Nat :=
  match alookup fs.depsIdx dependency with
  | none => (fs, 0)
  | some members =>
    let r := fakeDelLoop members fs.cache
    ({ cache := r.1, depsIdx := aremove fs.depsIdx dependency }, r.2)

/-- One decorated call against the fake backend: the lookup observes
`fakeGet`, the persist (when the wrapper performs one) is applied with
`fakeSet` under the call's cache key. -/
def syncWrapperFakeRun (cfg : SyncCfg) (key : String) (ops : BodyOps)
    (fo : FuncOutcome) (fs : FakeStore) (st : CtxStack) : SyncResult × FakeStore :=
  let r := syncWrapper cfg ⟨.ok (fakeGet fs key), ops, fo, .ok (), false, false⟩ key st
  (r, match r.persisted with
      | some (v, _, ds) => fakeSet fs key v ds
      | none => fs)

/-- C10: a decorated function returning `None` is re-executed on every call:
the miss path persists the `None` outcome, but a later lookup of the entry
yields Python `None` again, which the wrapper's `is not None` hit test cannot
distinguish from an absent key, so the next call also takes the miss path. -/
theorem c10_none_result_never_hits (cfg : SyncCfg) (key : String) (ops : BodyOps)
    (fs : FakeStore) (st : CtxStack) (h : fakeGet fs key = .vnone) :
    (syncWrapperFakeRun cfg key ops (.ret .vnone) fs st).1.funcExecuted = true ∧
    (syncWrapperFakeRun cfg key ops (.ret .vnone) fs st).1.outcome = .ok .vnone ∧
    alookup (syncWrapperFakeRun cfg key ops (.ret .vnone) fs st).2.cache key
      = some .vnone ∧
    fakeGet (syncWrapperFakeRun cfg key ops (.ret .vnone) fs st).2 key = .vnone ∧
    (syncWrapperFakeRun cfg key ops (.ret .vnone)
      (syncWrapperFakeRun cfg key ops (.ret .vnone) fs st).2 st).1.funcExecuted = true := by
  have h' : (alookup fs.cache key).getD PyVal.vnone = PyVal.vnone := h
  refine ⟨?_, ?_, ?_, ?_, ?_⟩ <;>
    simp [syncWrapperFakeRun, syncWrapper, syncMissPath, funcOutcomeExcept,
      fakeSet, fakeGet, h', alookup_aupsert_self]

/-- Concrete instantiation of `c10_none_result_never_hits` from an empty
store. -/
theorem c10_none_result_never_hits_witness :
    (syncWrapperFakeRun ⟨some "m", none, none, none, false, false⟩ "k" .nil
      (.ret .vnone) ⟨[], []⟩ []).1.funcExecuted = true ∧
    (syncWrapperFakeRun ⟨some "m", none, none, none, false, false⟩ "k" .nil
      (.ret .vnone) ⟨[], []⟩ []).1.outcome = .ok .vnone ∧
    alookup (syncWrapperFakeRun ⟨some "m", none, none, none, false, false⟩ "k" .nil
      (.ret .vnone) ⟨[], []⟩ []).2.cache "k" = some .vnone ∧
    fakeGet (syncWrapperFakeRun ⟨some "m", none, none, none, false, false⟩ "k" .nil
      (.ret .vnone) ⟨[], []⟩ []).2 "k" = .vnone ∧
    (syncWrapperFakeRun ⟨some "m", none, none, none, false, false⟩ "k" .nil
      (.ret .vnone)
      (syncWrapperFakeRun ⟨some "m", none, none, none, false, false⟩ "k" .nil
        (.ret .vnone) ⟨[], []⟩ []).2 []).1.funcExecuted = true :=
  c10_none_result_never_hits ⟨some "m", none, none, none, false, false⟩ "k" .nil
    ⟨[], []⟩ [] rfl

/-! ## Redis backend (`redis_backends.py`, `backends.py`)

Key namespacing: cache values live at `"{prefix}:{key}"` and dependency
indices at `"{prefix}:deps:{tag}"` (see `CacheBackend._cache_key` /
`_deps_key`), two disjoint families that are injective in `key` and `tag` for
a fixed prefix; they are modelled as the two constructors of `RKey`.  A Redis
database maps each live key to a string or a set payload, with an optional
TTL; `TTL` reports `-1` for a live key without expiry and `-2` for a missing
key, and plain `SET` discards an existing TTL. -/

/-- A prefixed Redis key. -/
inductive RKey where
  | entry (k : String)
  | deps (tag : String)
deriving DecidableEq, Repr

/-- A Redis database state. -/
structure RedisState where
  strings : List (RKey × String)
  sets : List (RKey × List RKey)
  ttls : List (RKey × Nat)
deriving Repr

/-- `EXISTS`: a key is live when it holds a string or a set. -/
def rExists (st : RedisState) (k : RKey) : Bool :=
  (alookup st.strings k).isSome || (alookup st.sets k).isSome

/-- `TTL`: remaining seconds, `-1` when persistent, `-2` when absent. -/
def rTtl (st : RedisState) (k : RKey) : Int :=
  if rExists st k then
    match alookup st.ttls k with
    | some t => (t : Int)
    | none => -1
  else -2

/-- `SET` (no TTL): stores the value and discards any existing TTL. -/
def rSet (st : RedisState) (k : RKey) (v : String) : RedisState :=
  { st with strings := aupsert st.strings k v, ttls := aremove st.ttls k }

/-- `SETEX`: stores the value with a TTL. -/
def rSetEx (st : RedisState) (k : RKey) (t : Nat) (v : String) : RedisState :=
  { st with strings := aupsert st.strings k v, ttls := aupsert st.ttls k t }

/-- `SADD`: adds a member, creating the (persistent) set key if missing. -/
def rSAdd (st : RedisState) (k : RKey) (m : RKey) : RedisState :=
  let cur := (alookup st.sets k).getD []
  { st with sets := aupsert st.sets k (if cur.contains m then cur else cur ++ [m]) }

/-- `EXPIRE`: sets a TTL on a live key, no-op on a missing one. -/
def rExpire (st : RedisState) (k : RKey) (t : Nat) : RedisState :=
  if rExists st k then { st with ttls := aupsert st.ttls k t } else st

/-- `DEL` of one key, reporting whether it was live. -/
def rDeleteOne (st : RedisState) (k : RKey) : RedisState × Nat :=
  (⟨aremove st.strings k, aremove st.sets k, aremove st.ttls k⟩,
    if rExists st k then 1 else 0)

/-- `DEL key...`: removes the keys, returning how many were live. -/
def rDelete (st : RedisState) : List RKey → RedisState × Nat
  | [] => (st, 0)
  | k :: rest =>
    let r1 := rDeleteOne st k
    let r2 := rDelete r1.1 rest
    (r2.1, r1.2 + r2.2)

/-- The per-dependency step inside `RedisCacheBackend.set`: `SADD` the cache
key into the index, then, when a (truthy) TTL is being written, read the
index's TTL and `EXPIRE` it if the index is persistent or shorter-lived than
this entry (`current_ttl == -1 or (current_ttl != -2 and current_ttl < ttl)`).
-/
def redisSetStep (key : String) (ttl : Option Nat) (acc : RedisState)
    (dep : String) : RedisState :=
  let dk := RKey.deps dep
  let acc1 := rSAdd acc dk (RKey.entry key)
  match ttl with
  | none => acc1
  | some t =>
    if t = 0 then acc1
    else
      let c := rTtl acc1 dk
      if c = -1 ∨ (c ≠ -2 ∧ c < (t : Int)) then rExpire acc1 dk t else acc1

/-- `RedisCacheBackend.set`: `SETEX`/`SET` of the serialized value (Python
`if ttl:` treats `None` and `0` alike), then the per-dependency loop. -/
def redisBackendSet (st : RedisState) (key v : String) (ttl : Option Nat)
    (deps : List String) : RedisState :=
  let ck := RKey.entry key
  let st1 :=
    match ttl with
    | some t => if t = 0 then rSet st ck v else rSetEx st ck t v
    | none => rSet st ck v
  deps.foldl (redisSetStep key ttl) st1

/-- `RedisCacheBackend.invalidate_dependency`: read the index's member set,
delete every member, delete the index itself, return the member-delete count.
-/
def redisInvalidate (st : RedisState) (tag : String) : RedisState × Nat :=
  let dk := RKey.deps tag
  let ms := (alookup st.sets dk).getD []
  if ms.isEmpty then (st, 0)
  else
    let r1 := rDelete st ms
    let r2 := rDelete r1.1 [dk]
    (r2.1, r1.2)

/-- The three lookups that determine one key's observable state. -/
def rKeyState (st : RedisState) (k : RKey) :
    Option String × Option (List RKey) × Option Nat :=
  (alookup st.strings k, alookup st.sets k, alookup st.ttls k)

lemma rExists_eq_of_rKeyState_eq {st st' : RedisState} {k : RKey}
    (h : rKeyState st' k = rKeyState st k) : rExists st' k = rExists st k := by
  have h1 := congrArg Prod.fst h
  have h2 := congrArg (fun p => p.2.1) h
  simp only [rKeyState] at h1 h2
  unfold rExists
  rw [h1, h2]

lemma ttls_eq_of_rKeyState_eq {st st' : RedisState} {k : RKey}
    (h : rKeyState st' k = rKeyState st k) : alookup st'.ttls k = alookup st.ttls k := by
  have h3 := congrArg (fun p => p.2.2) h
  simpa only [rKeyState] using h3

lemma rTtl_eq_of_rKeyState_eq {st st' : RedisState} {k : RKey}
    (h : rKeyState st' k = rKeyState st k) : rTtl st' k = rTtl st k := by
  unfold rTtl
  rw [rExists_eq_of_rKeyState_eq h, ttls_eq_of_rKeyState_eq h]

lemma rKeyState_rSAdd_ne (st : RedisState) (dk m k : RKey) (h : k ≠ dk) :
    rKeyState (rSAdd st dk m) k = rKeyState st k := by
  unfold rKeyState rSAdd
  rw [alookup_aupsert_ne _ _ _ _ (fun hh => h hh.symm)]

lemma rKeyState_rExpire_ne (st : RedisState) (dk : RKey) (t : Nat) (k : RKey)
    (h : k ≠ dk) : rKeyState (rExpire st dk t) k = rKeyState st k := by
  unfold rExpire
  rcases hex : rExists st dk with _ | _
  · simp
  · simp only [if_true]
    unfold rKeyState
    rw [alookup_aupsert_ne _ _ _ _ (fun hh => h hh.symm)]

lemma rKeyState_rSet_ne (st : RedisState) (ck : RKey) (v : String) (k : RKey)
    (h : k ≠ ck) : rKeyState (rSet st ck v) k = rKeyState st k := by
  unfold rKeyState rSet
  rw [alookup_aupsert_ne _ _ _ _ (fun hh => h hh.symm),
    alookup_aremove_ne _ _ _ (fun hh => h hh.symm)]

lemma rKeyState_rSetEx_ne (st : RedisState) (ck : RKey) (t : Nat) (v : String)
    (k : RKey) (h : k ≠ ck) : rKeyState (rSetEx st ck t v) k = rKeyState st k := by
  unfold rKeyState rSetEx
  rw [alookup_aupsert_ne _ _ _ _ (fun hh => h hh.symm),
    alookup_aupsert_ne _ _ _ _ (fun hh => h hh.symm)]

lemma rKeyState_redisSetStep_ne (key : String) (ttl : Option Nat) (acc : RedisState)
    (dep tag : String) (h : dep ≠ tag) :
    rKeyState (redisSetStep key ttl acc dep) (RKey.deps tag) =
      rKeyState acc (RKey.deps tag) := by
  have hne : RKey.deps tag ≠ RKey.deps dep := by
    intro hh
    exact h (RKey.deps.injEq tag dep ▸ hh).symm
  unfold redisSetStep
  cases ttl with
  | none => exact rKeyState_rSAdd_ne acc _ _ _ hne
  | some t =>
    by_cases h0 : t = 0
    · simp only [h0, if_pos rfl]
      exact rKeyState_rSAdd_ne acc _ _ _ hne
    · simp only [if_neg h0]
      by_cases hc : rTtl (rSAdd acc (RKey.deps dep) (RKey.entry key)) (RKey.deps dep) = -1 ∨
          (rTtl (rSAdd acc (RKey.deps dep) (RKey.entry key)) (RKey.deps dep) ≠ -2 ∧
            rTtl (rSAdd acc (RKey.deps dep) (RKey.entry key)) (RKey.deps dep) < (t : Int))
      · rw [if_pos hc, rKeyState_rExpire_ne _ _ _ _ hne, rKeyState_rSAdd_ne acc _ _ _ hne]
      · rw [if_neg hc, rKeyState_rSAdd_ne acc _ _ _ hne]

lemma rKeyState_fold_ne (key : String) (ttl : Option Nat) (l : List String)
    (tag : String) (h : tag ∉ l) (acc : RedisState) :
    rKeyState (List.foldl (redisSetStep key ttl) acc l) (RKey.deps tag) =
      rKeyState acc (RKey.deps tag) := by
  induction l generalizing acc with
  | nil => rfl
  | cons d rest ih =>
    have hd : d ≠ tag := fun hh => h (hh ▸ List.mem_cons_self d rest)
    have hrest : tag ∉ rest := fun hh => h (List.mem_cons_of_mem d hh)
    rw [List.foldl_cons, ih hrest, rKeyState_redisSetStep_ne key ttl acc d tag hd]

lemma rTtl_of_exists (st : RedisState) (k : RKey) (hex : rExists st k = true) :
    rTtl st k =
      (match alookup st.ttls k with
        | some u => (u : Int)
        | none => -1) := by
  unfold rTtl
  rw [hex]
  simp

lemma rTtl_of_not_exists (st : RedisState) (k : RKey) (hex : rExists st k = false) :
    rTtl st k = -2 := by
  unfold rTtl
  rw [hex]
  simp

lemma rSAdd_sets (st : RedisState) (dk m : RKey) :
    (rSAdd st dk m).sets =
      aupsert st.sets dk
        (if ((alookup st.sets dk).getD []).contains m then (alookup st.sets dk).getD []
         else (alookup st.sets dk).getD [] ++ [m]) := rfl

lemma rSAdd_strings (st : RedisState) (dk m : RKey) :
    (rSAdd st dk m).strings = st.strings := rfl

lemma rSAdd_ttls (st : RedisState) (dk m : RKey) :
    (rSAdd st dk m).ttls = st.ttls := rfl

lemma rExists_rSAdd_self (st : RedisState) (dk m : RKey) :
    rExists (rSAdd st dk m) dk = true := by
  unfold rExists
  rw [rSAdd_sets, alookup_aupsert_self]
  simp

lemma rTtl_rSAdd_self (acc : RedisState) (dk m : RKey) :
    rTtl (rSAdd acc dk m) dk =
      (match alookup acc.ttls dk with
        | some u => (u : Int)
        | none => -1) := by
  rw [rTtl_of_exists _ _ (rExists_rSAdd_self acc dk m), rSAdd_ttls]

lemma rExpire_of_exists (st : RedisState) (dk : RKey) (t : Nat)
    (hex : rExists st dk = true) :
    rExpire st dk t = { st with ttls := aupsert st.ttls dk t } := by
  unfold rExpire
  rw [hex]
  simp

lemma rTtl_rExpire_self (st : RedisState) (dk : RKey) (t : Nat)
    (hex : rExists st dk = true) :
    rTtl (rExpire st dk t) dk = (t : Int) := by
  rw [rExpire_of_exists st dk t hex]
  have hex' : rExists ({ st with ttls := aupsert st.ttls dk t } : RedisState) dk = true := by
    unfold rExists at hex ⊢
    exact hex
  rw [rTtl_of_exists _ _ hex']
  show (match alookup (aupsert st.ttls dk t) dk with
    | some u => (u : Int)
    | none => -1) = (t : Int)
  rw [alookup_aupsert_self]

/-- The TTL-extension branch of `RedisCacheBackend.set` at the tag's own step,
with a truthy TTL: a currently persistent index (and a freshly created one,
whose `TTL` is also `-1` right after `SADD`) receives TTL `t`; a finite TTL is
raised to `max(t, current)`.  The well-formedness hypothesis — Redis never has
a TTL recorded for a missing key — rules out unreachable model states. -/
lemma redisSetStep_tag (key tag : String) (t : Nat) (ht : t ≠ 0) (acc : RedisState)
    (hwf : alookup acc.ttls (RKey.deps tag) ≠ none →
      rExists acc (RKey.deps tag) = true) :
    rTtl (redisSetStep key (some t) acc tag) (RKey.deps tag) =
      if rTtl acc (RKey.deps tag) ≤ 0 then (t : Int)
      else max (rTtl acc (RKey.deps tag)) (t : Int) := by
  have htpos : (0 : Int) < (t : Int) := by
    exact_mod_cast Nat.pos_of_ne_zero ht
  have hexadd := rExists_rSAdd_self acc (RKey.deps tag) (RKey.entry key)
  have hsadd := rTtl_rSAdd_self acc (RKey.deps tag) (RKey.entry key)
  have hstep : redisSetStep key (some t) acc tag =
      if rTtl (rSAdd acc (RKey.deps tag) (RKey.entry key)) (RKey.deps tag) = -1 ∨
          (rTtl (rSAdd acc (RKey.deps tag) (RKey.entry key)) (RKey.deps tag) ≠ -2 ∧
            rTtl (rSAdd acc (RKey.deps tag) (RKey.entry key)) (RKey.deps tag) < (t : Int))
        then rExpire (rSAdd acc (RKey.deps tag) (RKey.entry key)) (RKey.deps tag) t
        else rSAdd acc (RKey.deps tag) (RKey.entry key) := by
    show (if t = 0 then rSAdd acc (RKey.deps tag) (RKey.entry key)
      else
        if rTtl (rSAdd acc (RKey.deps tag) (RKey.entry key)) (RKey.deps tag) = -1 ∨
            (rTtl (rSAdd acc (RKey.deps tag) (RKey.entry key)) (RKey.deps tag) ≠ -2 ∧
              rTtl (rSAdd acc (RKey.deps tag) (RKey.entry key)) (RKey.deps tag) < (t : Int))
          then rExpire (rSAdd acc (RKey.deps tag) (RKey.entry key)) (RKey.deps tag) t
          else rSAdd acc (RKey.deps tag) (RKey.entry key)) = _
    rw [if_neg ht]
  rw [hstep]
  rcases halook : alookup acc.ttls (RKey.deps tag) with _ | u
  · -- no recorded TTL: the index reads as persistent after SADD, so EXPIRE t
    have hc : rTtl (rSAdd acc (RKey.deps tag) (RKey.entry key)) (RKey.deps tag) = -1 := by
      rw [hsadd, halook]
    rw [if_pos (Or.inl hc), rTtl_rExpire_self _ _ _ hexadd]
    have hle : rTtl acc (RKey.deps tag) ≤ 0 := by
      rcases hex : rExists acc (RKey.deps tag) with _ | _
      · rw [rTtl_of_not_exists _ _ hex]
        norm_num
      · rw [rTtl_of_exists _ _ hex, halook]
        norm_num
    rw [if_pos hle]
  · -- a recorded TTL u: the key is live (well-formedness), compare u with t
    have hex : rExists acc (RKey.deps tag) = true := by
      apply hwf
      rw [halook]
      simp
    have hacc : rTtl acc (RKey.deps tag) = (u : Int) := by
      rw [rTtl_of_exists _ _ hex, halook]
    have hc : rTtl (rSAdd acc (RKey.deps tag) (RKey.entry key)) (RKey.deps tag)
        = (u : Int) := by
      rw [hsadd, halook]
    by_cases hlt : (u : Int) < (t : Int)
    · have hcond : rTtl (rSAdd acc (RKey.deps tag) (RKey.entry key)) (RKey.deps tag) = -1 ∨
          (rTtl (rSAdd acc (RKey.deps tag) (RKey.entry key)) (RKey.deps tag) ≠ -2 ∧
            rTtl (rSAdd acc (RKey.deps tag) (RKey.entry key)) (RKey.deps tag) < (t : Int)) := by
        refine Or.inr ⟨?_, by rw [hc]; exact hlt⟩
        rw [hc]
        omega
      rw [if_pos hcond, rTtl_rExpire_self _ _ _ hexadd, hacc]
      by_cases hu0 : (u : Int) ≤ 0
      · rw [if_pos hu0]
      · rw [if_neg hu0, max_eq_right (le_of_lt hlt)]
    · have hcond : ¬(rTtl (rSAdd acc (RKey.deps tag) (RKey.entry key)) (RKey.deps tag) = -1 ∨
          (rTtl (rSAdd acc (RKey.deps tag) (RKey.entry key)) (RKey.deps tag) ≠ -2 ∧
            rTtl (rSAdd acc (RKey.deps tag) (RKey.entry key)) (RKey.deps tag) < (t : Int))) := by

        rw [hc]
        push_neg
        refine ⟨by omega, fun _ => not_lt.mp hlt⟩
      rw [if_neg hcond, hc, hacc]
      have hu0 : ¬(u : Int) ≤ 0 := by omega
      rw [if_neg hu0, max_eq_left (not_lt.mp hlt)]

/-- The tag's own step with no (or zero) TTL: only the `SADD` runs, so a
missing index becomes a live persistent one and an existing index's TTL state
is untouched. -/
lemma redisSetStep_tag_none (key tag : String) (acc : RedisState)
    (hwf : alookup acc.ttls (RKey.deps tag) ≠ none →
      rExists acc (RKey.deps tag) = true) :
    rTtl (redisSetStep key none acc tag) (RKey.deps tag) =
      if rTtl acc (RKey.deps tag) = -2 then -1 else rTtl acc (RKey.deps tag) := by
  have hstep : redisSetStep key none acc tag =
      rSAdd acc (RKey.deps tag) (RKey.entry key) := rfl
  rw [hstep, rTtl_rSAdd_self]
  rcases hex : rExists acc (RKey.deps tag) with _ | _
  · have hnone : alookup acc.ttls (RKey.deps tag) = none := by
      by_contra hnn
      rw [hwf hnn] at hex
      cases hex
    rw [hnone, rTtl_of_not_exists _ _ hex]
    norm_num
  · rw [rTtl_of_exists _ _ hex]
    rcases halook : alookup acc.ttls (RKey.deps tag) with _ | u
    · norm_num
    · have hne : ((u : Int)) ≠ -2 := by omega
      simp [hne]

lemma entryWrite_rKeyState (st : RedisState) (key v : String) (ttlOpt : Option Nat)
    (tag : String) :
    rKeyState
      (match ttlOpt with
        | some t => if t = 0 then rSet st (RKey.entry key) v else rSetEx st (RKey.entry key) t v
        | none => rSet st (RKey.entry key) v) (RKey.deps tag) =
      rKeyState st (RKey.deps tag) := by
  have hne : RKey.deps tag ≠ RKey.entry key := fun hh => RKey.noConfusion hh
  cases ttlOpt with
  | none => exact rKeyState_rSet_ne st _ v _ hne
  | some t =>
    show rKeyState
      (if t = 0 then rSet st (RKey.entry key) v else rSetEx st (RKey.entry key) t v)
      (RKey.deps tag) = _
    by_cases h0 : t = 0
    · rw [if_pos h0]
      exact rKeyState_rSet_ne st _ v _ hne
    · rw [if_neg h0]
      exact rKeyState_rSetEx_ne st _ t v _ hne

lemma redisBackendSet_deps_decomp (st : RedisState) (key v : String)
    (ttlOpt : Option Nat) (l1 l2 : List String) (tag : String)
    (h1 : tag ∉ l1) (h2 : tag ∉ l2) :
    ∃ A : RedisState,
      rKeyState A (RKey.deps tag) = rKeyState st (RKey.deps tag) ∧
      rTtl (redisBackendSet st key v ttlOpt (l1 ++ tag :: l2)) (RKey.deps tag) =
        rTtl (redisSetStep key ttlOpt A tag) (RKey.deps tag) := by
  refine ⟨List.foldl (redisSetStep key ttlOpt)
    (match ttlOpt with
      | some t => if t = 0 then rSet st (RKey.entry key) v else rSetEx st (RKey.entry key) t v
      | none => rSet st (RKey.entry key) v) l1, ?_, ?_⟩
  · rw [rKeyState_fold_ne key ttlOpt l1 tag h1, entryWrite_rKeyState]
  · show rTtl (List.foldl (redisSetStep key ttlOpt) _ (l1 ++ tag :: l2)) (RKey.deps tag) = _
    rw [List.foldl_append, List.foldl_cons]
    exact rTtl_eq_of_rKeyState_eq (rKeyState_fold_ne key ttlOpt l2 tag h2 _)

/-- C1 (amended): for a `set` with dependencies and a truthy TTL `t`, each
dependency index whose current TTL is finite is raised to `max(t, current)`,
while an index that currently has NO TTL — missing, freshly created by this
call's `SADD`, or previously persistent — is given TTL `t`; a `set` with no
(or zero) TTL leaves index TTLs unchanged, except that a missing index comes
into existence as persistent.  (Redis never records a TTL for a missing key,
whence the well-formedness hypothesis.) -/
theorem c1_index_ttl_extension (st : RedisState) (key v : String) (t : Nat)
    (deps : List String) (tag : String) (hmem : tag ∈ deps) (hnd : deps.Nodup)
    (ht : t ≠ 0)
    (hwf : alookup st.ttls (RKey.deps tag) ≠ none →
      rExists st (RKey.deps tag) = true) :
    rTtl (redisBackendSet st key v (some t) deps) (RKey.deps tag) =
      (if rTtl st (RKey.deps tag) ≤ 0 then (t : Int)
       else max (rTtl st (RKey.deps tag)) (t : Int)) ∧
    rTtl (redisBackendSet st key v none deps) (RKey.deps tag) =
      (if rTtl st (RKey.deps tag) = -2 then -1 else rTtl st (RKey.deps tag)) := by
  obtain ⟨l1, l2, rfl⟩ := List.append_of_mem hmem
  rw [List.nodup_append] at hnd
  have h1 : tag ∉ l1 := fun hh => (hnd.2.2 hh) (List.mem_cons_self tag l2)
  have h2 : tag ∉ l2 := (List.nodup_cons.mp hnd.2.1).1
  constructor
  · obtain ⟨A, hA, hB⟩ := redisBackendSet_deps_decomp st key v (some t) l1 l2 tag h1 h2
    have hwfA : alookup A.ttls (RKey.deps tag) ≠ none →
        rExists A (RKey.deps tag) = true := by
      rw [ttls_eq_of_rKeyState_eq hA, rExists_eq_of_rKeyState_eq hA]
      exact hwf
    rw [hB, redisSetStep_tag key tag t ht A hwfA, rTtl_eq_of_rKeyState_eq hA]
  · obtain ⟨A, hA, hB⟩ := redisBackendSet_deps_decomp st key v none l1 l2 tag h1 h2
    have hwfA : alookup A.ttls (RKey.deps tag) ≠ none →
        rExists A (RKey.deps tag) = true := by
      rw [ttls_eq_of_rKeyState_eq hA, rExists_eq_of_rKeyState_eq hA]
      exact hwf
    rw [hB, redisSetStep_tag_none key tag A hwfA, rTtl_eq_of_rKeyState_eq hA]

/-- Concrete instantiation of `c1_index_ttl_extension`: a fresh index receives
the entry's TTL; an established longer-lived index is untouched by a shorter
one (spec §8: `ttl("deps:A")` stays in `(50,60]`). -/
theorem c1_index_ttl_extension_witness :
    (rTtl (redisBackendSet ⟨[], [], []⟩ "k" "1" (some 60) ["A"]) (RKey.deps "A") =
      (if rTtl (⟨[], [], []⟩ : RedisState) (RKey.deps "A") ≤ 0 then (60 : Int)
       else max (rTtl (⟨[], [], []⟩ : RedisState) (RKey.deps "A")) (60 : Int)) ∧
    rTtl (redisBackendSet ⟨[], [], []⟩ "k" "1" none ["A"]) (RKey.deps "A") =
      (if rTtl (⟨[], [], []⟩ : RedisState) (RKey.deps "A") = -2 then -1
       else rTtl (⟨[], [], []⟩ : RedisState) (RKey.deps "A"))) ∧
    rTtl (redisBackendSet (redisBackendSet ⟨[], [], []⟩ "k" "1" (some 60) ["A"])
      "k2" "2" (some 30) ["A"]) (RKey.deps "A") = 60 :=
  ⟨c1_index_ttl_extension ⟨[], [], []⟩ "k" "1" 60 ["A"] "A" (by decide) (by decide)
      (by decide) (fun h => absurd rfl h),
    by decide⟩

/-- C1 (counterexample): an index that is currently persistent (created by a
no-TTL `set`) IS given a TTL by a later `set` with `ttl=60` on the same tag —
the code's `current_ttl == -1` branch fires for persistent indices, so the
claim's "a persistent index is never given a TTL" is false. -/
theorem c1_counterexample :
    rTtl (redisBackendSet ⟨[], [], []⟩ "k1" "v1" none ["A"]) (RKey.deps "A") = -1 ∧
    rTtl (redisBackendSet (redisBackendSet ⟨[], [], []⟩ "k1" "v1" none ["A"])
      "k2" "v2" (some 60) ["A"]) (RKey.deps "A") ≠ -1 := by
  refine ⟨by decide, by decide⟩

/-! ### Tag invalidation (claim C7): deletion lemmas -/

lemma alookup_eq_none_of_not_mem_keys {α β : Type} [DecidableEq α]
    (l : List (α × β)) (k : α) (h : k ∉ l.map Prod.fst) : alookup l k = none := by
  induction l with
  | nil => rfl
  | cons p rest ih =>
    obtain ⟨a, b⟩ := p
    simp only [List.map_cons, List.mem_cons] at h
    push_neg at h
    have ha : ¬a = k := fun hh => h.1 hh.symm
    simp [alookup, ha, ih h.2]

lemma aremove_sublist {α β : Type} [DecidableEq α] (l : List (α × β)) (k : α) :
    List.Sublist (aremove l k) l := by
  induction l with
  | nil => simp [aremove]
  | cons p rest ih =>
    obtain ⟨a, b⟩ := p
    by_cases ha : a = k
    · simp only [aremove, if_pos ha]
      exact List.sublist_cons_self (a, b) rest
    · simp only [aremove, if_neg ha]
      exact ih.cons₂ (a, b)

lemma keysNodup_aremove {α β : Type} [DecidableEq α] (l : List (α × β)) (k : α)
    (h : (l.map Prod.fst).Nodup) : ((aremove l k).map Prod.fst).Nodup :=
  h.sublist ((aremove_sublist l k).map Prod.fst)

lemma alookup_aremove_self {α β : Type} [DecidableEq α] (l : List (α × β)) (k : α)
    (h : (l.map Prod.fst).Nodup) : alookup (aremove l k) k = none := by
  induction l with
  | nil => rfl
  | cons p rest ih =>
    obtain ⟨a, b⟩ := p
    simp only [List.map_cons, List.nodup_cons] at h
    by_cases ha : a = k
    · subst ha
      simp only [aremove, if_pos rfl]
      exact alookup_eq_none_of_not_mem_keys rest a h.1
    · simp [aremove, alookup, ha, ih h.2]

/-- The observable well-formedness of a store's maps: unique keys per map. -/
def storeKeysNodup (st : RedisState) : Prop :=
  (st.strings.map Prod.fst).Nodup ∧ (st.sets.map Prod.fst).Nodup ∧
    (st.ttls.map Prod.fst).Nodup

lemma storeKeysNodup_rDeleteOne {st : RedisState} (k : RKey)
    (h : storeKeysNodup st) : storeKeysNodup (rDeleteOne st k).1 :=
  ⟨keysNodup_aremove _ _ h.1, keysNodup_aremove _ _ h.2.1, keysNodup_aremove _ _ h.2.2⟩

lemma rDeleteOne_other {st : RedisState} (k k' : RKey) (h : k' ≠ k) :
    alookup ((rDeleteOne st k).1).strings k' = alookup st.strings k' ∧
    alookup ((rDeleteOne st k).1).sets k' = alookup st.sets k' ∧
    alookup ((rDeleteOne st k).1).ttls k' = alookup st.ttls k' :=
  ⟨alookup_aremove_ne _ _ _ h.symm, alookup_aremove_ne _ _ _ h.symm,
    alookup_aremove_ne _ _ _ h.symm⟩

lemma rExists_rDeleteOne_other {st : RedisState} (k k' : RKey) (h : k' ≠ k) :
    rExists (rDeleteOne st k).1 k' = rExists st k' := by
  unfold rExists
  rw [(rDeleteOne_other k k' h).1, (rDeleteOne_other k k' h).2.1]

lemma rExists_rDeleteOne_self {st : RedisState} (k : RKey)
    (h : storeKeysNodup st) : rExists (rDeleteOne st k).1 k = false := by
  unfold rExists
  show ((alookup (aremove st.strings k) k).isSome ||
    (alookup (aremove st.sets k) k).isSome) = false
  rw [alookup_aremove_self _ _ h.1, alookup_aremove_self _ _ h.2.1]
  rfl

lemma rDelete_other (ms : List RKey) (st : RedisState) (k : RKey) (h : k ∉ ms) :
    alookup ((rDelete st ms).1).strings k = alookup st.strings k ∧
    alookup ((rDelete st ms).1).sets k = alookup st.sets k := by
  induction ms generalizing st with
  | nil => exact ⟨rfl, rfl⟩
  | cons m rest ih =>
    have hm : k ≠ m := fun hh => h (hh ▸ List.mem_cons_self m rest)
    have hrest : k ∉ rest := fun hh => h (List.mem_cons_of_mem m hh)
    have hstep : alookup ((rDeleteOne st m).1).strings k = alookup st.strings k ∧
        alookup ((rDeleteOne st m).1).sets k = alookup st.sets k ∧
        alookup ((rDeleteOne st m).1).ttls k = alookup st.ttls k :=
      rDeleteOne_other m k hm
    have hr := ih (rDeleteOne st m).1 hrest
    exact ⟨hr.1.trans hstep.1, hr.2.trans hstep.2.1⟩

lemma rExists_rDelete_other (ms : List RKey) (st : RedisState) (k : RKey)
    (h : k ∉ ms) : rExists (rDelete st ms).1 k = rExists st k := by
  unfold rExists
  rw [(rDelete_other ms st k h).1, (rDelete_other ms st k h).2]

lemma storeKeysNodup_rDelete (ms : List RKey) (st : RedisState)
    (h : storeKeysNodup st) : storeKeysNodup (rDelete st ms).1 := by
  induction ms generalizing st with
  | nil => exact h
  | cons m rest ih => exact ih _ (storeKeysNodup_rDeleteOne m h)

lemma rDelete_count (ms : List RKey) (st : RedisState) (hnd : ms.Nodup)
    (hex : ∀ m ∈ ms, rExists st m = true) : (rDelete st ms).2 = ms.length := by
  induction ms generalizing st with
  | nil => rfl
  | cons m rest ih =>
    simp only [List.nodup_cons] at hnd
    have hone : (rDeleteOne st m).2 = 1 := by
      unfold rDeleteOne
      rw [hex m (List.mem_cons_self m rest)]
      rfl
    have hrest : ∀ m' ∈ rest, rExists (rDeleteOne st m).1 m' = true := by
      intro m' hm'
      have hne : m' ≠ m := fun hh => hnd.1 (hh ▸ hm')
      rw [rExists_rDeleteOne_other m m' hne]
      exact hex m' (List.mem_cons_of_mem m hm')
    show (rDeleteOne st m).2 + (rDelete (rDeleteOne st m).1 rest).2 = rest.length + 1
    rw [hone, ih _ hnd.2 hrest]
    omega

lemma rDelete_removes (ms : List RKey) : ∀ (st : RedisState), ms.Nodup →
    storeKeysNodup st → ∀ m ∈ ms, rExists (rDelete st ms).1 m = false := by
  induction ms with
  | nil =>
    intro st _ _ m hm
    cases hm
  | cons m rest ih =>
    intro st hnd h m' hm'
    simp only [List.nodup_cons] at hnd
    rcases List.mem_cons.mp hm' with hh | hh
    · subst hh
      show rExists (rDelete (rDeleteOne st m').1 rest).1 m' = false
      rw [rExists_rDelete_other rest _ m' hnd.1]
      exact rExists_rDeleteOne_self m' h
    · exact ih (rDeleteOne st m).1 hnd.2 (storeKeysNodup_rDeleteOne m h) m' hh

lemma fakeDelLoop_cons (m : String) (rest : List String)
    (cache : List (String × PyVal)) :
    fakeDelLoop (m :: rest) cache =
      if (alookup cache m).isSome then
        ((fakeDelLoop rest (aremove cache m)).1, (fakeDelLoop rest (aremove cache m)).2 + 1)
      else fakeDelLoop rest cache := rfl

lemma fakeDelLoop_other (ms : List String) : ∀ (cache : List (String × PyVal)) (k : String),
    k ∉ ms → alookup (fakeDelLoop ms cache).1 k = alookup cache k := by
  induction ms with
  | nil => intro cache k _; rfl
  | cons m rest ih =>
    intro cache k hk
    have hm : k ≠ m := fun hh => hk (hh ▸ List.mem_cons_self m rest)
    have hrest : k ∉ rest := fun hh => hk (List.mem_cons_of_mem m hh)
    rw [fakeDelLoop_cons]
    by_cases hs : (alookup cache m).isSome
    · rw [if_pos hs]
      show alookup (fakeDelLoop rest (aremove cache m)).1 k = _
      rw [ih (aremove cache m) k hrest, alookup_aremove_ne _ _ _ hm.symm]
    · rw [if_neg hs]
      exact ih cache k hrest

lemma fakeDelLoop_count (ms : List String) : ∀ (cache : List (String × PyVal)),
    ms.Nodup → (∀ m ∈ ms, (alookup cache m).isSome = true) →
    (fakeDelLoop ms cache).2 = ms.length := by
  induction ms with
  | nil => intro cache _ _; rfl
  | cons m rest ih =>
    intro cache hnd hall
    simp only [List.nodup_cons] at hnd
    have hs : (alookup cache m).isSome = true := hall m (List.mem_cons_self m rest)
    have hrest : ∀ m' ∈ rest, (alookup (aremove cache m) m').isSome = true := by
      intro m' hm'
      have hne : m ≠ m' := fun hh => hnd.1 (hh ▸ hm')
      rw [alookup_aremove_ne _ _ _ hne]
      exact hall m' (List.mem_cons_of_mem m hm')
    rw [fakeDelLoop_cons, if_pos hs]
    show (fakeDelLoop rest (aremove cache m)).2 + 1 = rest.length + 1
    rw [ih (aremove cache m) hnd.2 hrest]

lemma fakeDelLoop_removes (ms : List String) : ∀ (cache : List (String × PyVal)),
    ms.Nodup → (cache.map Prod.fst).Nodup →
    ∀ m ∈ ms, alookup (fakeDelLoop ms cache).1 m = none := by
  induction ms with
  | nil => intro cache _ _ m hm; cases hm
  | cons m rest ih =>
    intro cache hnd hknd m' hm'
    simp only [List.nodup_cons] at hnd
    rcases List.mem_cons.mp hm' with hh | hh
    · subst hh
      rw [fakeDelLoop_cons]
      by_cases hs : (alookup cache m').isSome
      · rw [if_pos hs]
        show alookup (fakeDelLoop rest (aremove cache m')).1 m' = none
        rw [fakeDelLoop_other rest (aremove cache m') m' hnd.1]
        exact alookup_aremove_self cache m' hknd
      · rw [if_neg hs]
        rw [fakeDelLoop_other rest cache m' hnd.1]
        exact Option.not_isSome_iff_eq_none.mp hs
    · rw [fakeDelLoop_cons]
      by_cases hs : (alookup cache m).isSome
      · rw [if_pos hs]
        exact ih (aremove cache m) hnd.2 (keysNodup_aremove cache m hknd) m' hh
      · rw [if_neg hs]
        exact ih cache hnd.2 hknd m' hh

/-- Whether a key names a cache entry (as opposed to a dependency index). -/
def RKey.isEntry : RKey → Bool
  | .entry _ => true
  | .deps _ => false

lemma RKey.ne_deps_of_isEntry {m : RKey} (h : m.isEntry = true) (tag : String) :
    m ≠ RKey.deps tag := by
  cases m with
  | entry k => exact fun hh => RKey.noConfusion hh
  | deps t => cases h

lemma redisInvalidate_eq (st : RedisState) (tag : String) :
    redisInvalidate st tag =
      if ((alookup st.sets (RKey.deps tag)).getD []).isEmpty then (st, 0)
      else
        ((rDeleteOne (rDelete st ((alookup st.sets (RKey.deps tag)).getD [])).1
            (RKey.deps tag)).1,
          (rDelete st ((alookup st.sets (RKey.deps tag)).getD [])).2) := rfl

lemma fakeInvalidate_eq (fs : FakeStore) (tag : String) :
    fakeInvalidate fs tag =
      (match alookup fs.depsIdx tag with
        | none => (fs, 0)
        | some members =>
          (⟨(fakeDelLoop members fs.cache).1, aremove fs.depsIdx tag⟩,
            (fakeDelLoop members fs.cache).2)) := rfl

/-- C7: with the dependency index for `T` holding exactly the `N` distinct
cache keys previously `set` with tag `T` (each still cached),
`invalidate_dependency(T)` returns `N`, deletes all `N` entries and the index
key itself, and a repeat call returns `0` — in both the Redis backend and the
in-memory fake backend. -/
theorem c7_invalidate_dependency (st : RedisState) (tag : String) (ms : List RKey)
    (fs : FakeStore) (msF : List String)
    (hms : alookup st.sets (RKey.deps tag) = some ms) (hmsne : ms ≠ [])
    (hnd : ms.Nodup) (hent : ∀ m ∈ ms, m.isEntry = true)
    (hex : ∀ m ∈ ms, (alookup st.strings m).isSome = true)
    (hskn : storeKeysNodup st)
    (hfd : alookup fs.depsIdx tag = some msF) (hfnd : msF.Nodup)
    (hfex : ∀ m ∈ msF, (alookup fs.cache m).isSome = true)
    (hfknd : (fs.cache.map Prod.fst).Nodup)
    (hdknd : (fs.depsIdx.map Prod.fst).Nodup) :
    ((redisInvalidate st tag).2 = ms.length ∧
      (∀ m ∈ ms, rExists (redisInvalidate st tag).1 m = false) ∧
      rExists (redisInvalidate st tag).1 (RKey.deps tag) = false ∧
      (redisInvalidate (redisInvalidate st tag).1 tag).2 = 0) ∧
    ((fakeInvalidate fs tag).2 = msF.length ∧
      (∀ m ∈ msF, alookup (fakeInvalidate fs tag).1.cache m = none) ∧
      alookup (fakeInvalidate fs tag).1.depsIdx tag = none ∧
      (fakeInvalidate (fakeInvalidate fs tag).1 tag).2 = 0) := by
  have hexists : ∀ m ∈ ms, rExists st m = true := by
    intro m hm
    unfold rExists
    rw [hex m hm]
    rfl
  have hmse : ms.isEmpty = false := by
    cases ms with
    | nil => exact absurd rfl hmsne
    | cons a l => rfl
  have hinv : redisInvalidate st tag =
      ((rDeleteOne (rDelete st ms).1 (RKey.deps tag)).1, (rDelete st ms).2) := by
    rw [redisInvalidate_eq, hms]
    simp [hmse]
  have hdkne : ∀ m ∈ ms, m ≠ RKey.deps tag := fun m hm =>
    RKey.ne_deps_of_isEntry (hent m hm) tag
  have hidx : rExists (redisInvalidate st tag).1 (RKey.deps tag) = false := by
    rw [hinv]
    exact rExists_rDeleteOne_self (RKey.deps tag) (storeKeysNodup_rDelete ms st hskn)
  refine ⟨⟨?_, ?_, hidx, ?_⟩, ?_⟩
  · rw [hinv]
    exact rDelete_count ms st hnd hexists
  · intro m hm
    rw [hinv]
    show rExists (rDeleteOne (rDelete st ms).1 (RKey.deps tag)).1 m = false
    rw [rExists_rDeleteOne_other (RKey.deps tag) m (hdkne m hm)]
    exact rDelete_removes ms st hnd hskn m hm
  · have hnone : alookup ((redisInvalidate st tag).1).sets (RKey.deps tag) = none := by
      have hf := hidx
      unfold rExists at hf
      rcases hs : alookup ((redisInvalidate st tag).1).sets (RKey.deps tag) with _ | v
      · rfl
      · rw [hs] at hf
        simp at hf
    rw [redisInvalidate_eq ((redisInvalidate st tag).1) tag, hnone]
    simp
  · have hfinv : fakeInvalidate fs tag =
        (⟨(fakeDelLoop msF fs.cache).1, aremove fs.depsIdx tag⟩,
          (fakeDelLoop msF fs.cache).2) := by
      rw [fakeInvalidate_eq, hfd]
    have hfidx : alookup (fakeInvalidate fs tag).1.depsIdx tag = none := by
      rw [hfinv]
      exact alookup_aremove_self fs.depsIdx tag hdknd
    refine ⟨?_, ?_, hfidx, ?_⟩
    · rw [hfinv]
      exact fakeDelLoop_count msF fs.cache hfnd hfex
    · intro m hm
      rw [hfinv]
      exact fakeDelLoop_removes msF fs.cache hfnd hfknd m hm
    · rw [fakeInvalidate_eq ((fakeInvalidate fs tag).1) tag, hfidx]

/-- The Redis state of the C7 witness: two entries set with shared tag "A". -/
def c7st : RedisState :=
  redisBackendSet (redisBackendSet ⟨[], [], []⟩ "k1" "1" (some 60) ["A"])
    "k2" "2" (some 30) ["A"]

/-- The fake-store state of the C7 witness: two entries set with shared
tag "A". -/
def c7fs : FakeStore :=
  fakeSet (fakeSet ⟨[], []⟩ "k1" (.vint 1) ["A"]) "k2" (.vint 2) ["A"]

/-- Concrete instantiation of `c7_invalidate_dependency` with `N = 2`. -/
theorem c7_invalidate_dependency_witness :
    ((redisInvalidate c7st "A").2 = [RKey.entry "k1", RKey.entry "k2"].length ∧
      (∀ m ∈ [RKey.entry "k1", RKey.entry "k2"],
        rExists (redisInvalidate c7st "A").1 m = false) ∧
      rExists (redisInvalidate c7st "A").1 (RKey.deps "A") = false ∧
      (redisInvalidate (redisInvalidate c7st "A").1 "A").2 = 0) ∧
    ((fakeInvalidate c7fs "A").2 = ["k1", "k2"].length ∧
      (∀ m ∈ ["k1", "k2"], alookup (fakeInvalidate c7fs "A").1.cache m = none) ∧
      alookup (fakeInvalidate c7fs "A").1.depsIdx "A" = none ∧
      (fakeInvalidate (fakeInvalidate c7fs "A").1 "A").2 = 0) :=
  c7_invalidate_dependency c7st "A" [RKey.entry "k1", RKey.entry "k2"] c7fs ["k1", "k2"]
    (by decide) (by decide) (by decide) (by decide) (by decide)
    ⟨by decide, by decide, by decide⟩
    (by decide) (by decide) (by decide) (by decide) (by decide)

/-! ## Cache-key generation (`decorators.py`)

`_get_cache_key_for_arg` probes the argument for, in order: a `__cache_key__`
callable or attribute, a `_cache_key` attribute, a `pk` attribute, an `id`
attribute, and finally `str(arg)`.  A `PyArg` records which probe succeeds
first and the (already stringified) data that probe yields. -/

/-- One decorated-call argument as seen by `_get_cache_key_for_arg`. -/
inductive PyArg where
  | withCacheKeyMethod (s : String)
  | withCacheKeyAttrVal (s : String)
  | withCacheKeyAttr (s : String)
  | withPk (cls pk : String)
  | withId (cls idv : String)
  | plain (s : String)
deriving DecidableEq, Repr

/-- `_get_cache_key_for_arg`. -/
def getCacheKeyForArg : PyArg → String
  | .withCacheKeyMethod s => s
  | .withCacheKeyAttrVal s => s
  | .withCacheKeyAttr s => s
  | .withPk cls pk => cls ++ "::" ++ pk
  | .withId cls idv => cls ++ "::" ++ idv
  | .plain s => s

/-- Insertion into a key-sorted keyword list. -/
def insertSorted (p : String × PyArg) : List (String × PyArg) → List (String × PyArg)
  | [] => [p]
  | q :: rest => if p.1 ≤ q.1 then p :: q :: rest else q :: insertSorted p rest

/-- `sorted(kwargs.keys())`: the keyword arguments in ascending key order
(keys are unique in Python keyword arguments). -/
def sortKwargs : List (String × PyArg) → List (String × PyArg)
  | [] => []
  | p :: rest => insertSorted p (sortKwargs rest)

/-- The `arg_parts` list of `_generate_cache_key`: positional representations
followed by `"k=v"` strings for the keyword arguments in sorted key order. -/
def argParts (args : List PyArg) (kwargs : List (String × PyArg)) : List String :=
  args.map getCacheKeyForArg ++
    (sortKwargs kwargs).map (fun p => p.1 ++ "=" ++ getCacheKeyForArg p.2)

/-- The `full_key` string of `_generate_cache_key`:
`f"{func_name}({args_str})"` with `args_str = ",".join(arg_parts)`.  The code
then returns `hashlib.md5(full_key.encode()).hexdigest()`; the digest is a
deterministic function of this string, so equal `full_key`s give equal cache
keys, and any collision of `full_key`s is a collision of cache keys. -/
def generateCacheKey (funcName : String) (args : List PyArg)
    (kwargs : List (String × PyArg)) : String :=
  funcName ++ "(" ++ String.intercalate "," (argParts args kwargs) ++ ")"

lemma string_append_cancel_left {a b c : String} (h : a ++ b = a ++ c) : b = c := by
  have hd := congrArg String.data h
  simp only [String.data_append] at hd
  exact String.ext (List.append_cancel_left hd)

lemma string_append_cancel_right {a b c : String} (h : a ++ c = b ++ c) : a = b := by
  have hd := congrArg String.data h
  simp only [String.data_append] at hd
  exact String.ext (List.append_cancel_right hd)

/-- C8 (amended): equal sequences of argument representations give equal cache
keys; but distinct sequences guarantee distinct keys only up to the
comma-join: the pre-hash keys of two calls to the same function are equal
exactly when the joined representation strings are equal, and the join is not
injective. -/
theorem c8_key_stability (funcName : String) (a1 a2 : List PyArg)
    (k1 k2 : List (String × PyArg)) :
    (argParts a1 k1 = argParts a2 k2 →
      generateCacheKey funcName a1 k1 = generateCacheKey funcName a2 k2) ∧
    (generateCacheKey funcName a1 k1 = generateCacheKey funcName a2 k2 ↔
      String.intercalate "," (argParts a1 k1) =
        String.intercalate "," (argParts a2 k2)) := by
  constructor
  · intro h
    unfold generateCacheKey
    rw [h]
  · constructor
    · intro h
      unfold generateCacheKey at h
      exact string_append_cancel_left (string_append_cancel_right h)
    · intro h
      unfold generateCacheKey
      rw [h]

/-- Concrete instantiation of `c8_key_stability`. -/
theorem c8_key_stability_witness :
    (argParts [PyArg.plain "7"] [] = argParts [PyArg.plain "7"] [] →
      generateCacheKey "m.f" [PyArg.plain "7"] [] =
        generateCacheKey "m.f" [PyArg.plain "7"] []) ∧
    (generateCacheKey "m.f" [PyArg.plain "7"] [] =
        generateCacheKey "m.f" [PyArg.plain "7"] [] ↔
      String.intercalate "," (argParts [PyArg.plain "7"] []) =
        String.intercalate "," (argParts [PyArg.plain "7"] [])) :=
  c8_key_stability "m.f" [PyArg.plain "7"] [PyArg.plain "7"] [] []

/-- C8 (counterexample): one argument whose representation is `"a,b"` and two
arguments with representations `"a"`, `"b"` are different representation
sequences, yet their joined `args_str` — hence the full key and its md5
digest — coincide. -/
theorem c8_counterexample :
    argParts [PyArg.plain "a,b"] [] ≠ argParts [PyArg.plain "a", PyArg.plain "b"] [] ∧
    generateCacheKey "m.f" [PyArg.plain "a,b"] [] =
      generateCacheKey "m.f" [PyArg.plain "a", PyArg.plain "b"] [] := by
  refine ⟨by decide, by decide⟩

/-! ## Exception serialization (`types.py` `JSONSerializer`, `utils.py`
`DynamicImporter`)

`dump` turns an exception into the dict
`{type: "cached_exception", exception_class: type(e).__name__,
exception_module: type(e).__module__, message: str(e)}` (serialized as JSON);
`load` recognises that dict and rebuilds the exception through
`safe_load_exception`, which resolves `module.class` through the import
system — modelled by an opaque `Resolver` environment — and falls back to a
dynamically created `type(class_name, (Exception,), ...)` on failure. -/

/-- A resolvable Python exception class: its MRO names and defining module. -/
structure ExcClass where
  mro : List String
  modName : String

/-- The import system: what `DynamicImporter.load_exception` finds for a
`(module_name, class_name)` pair, `none` when the import or the attribute
lookup fails. -/
def Resolver : Type := String → String → Option ExcClass

/-- The serialized payload: a plain JSON value, or the exception dict
(`is_exception_dict` is the constructor discrimination). -/
inductive Blob where
  | prim (v : PyVal)
  | excDict (className modName message : String)

/-- `JSONSerializer.dump` composed with `exception_to_dict` for exceptions. -/
def serializerDump : PyVal → Blob
  | .vexc e => .excDict (e.mro.headD "") e.modName e.message
  | v => .prim v

/-- `DynamicImporter.create_dynamic_exception`: a fresh class named
`class_name` with bases `(Exception,)` and `__module__` set to the recorded
module, instantiated with the message. -/
def createDynamicException (className modName message : String) : PyExc :=
  ⟨[className, "Exception", "BaseException", "object"], modName, message⟩

/-- `DynamicImporter.safe_load_exception`. -/
def safeLoadException (res : Resolver) (modName className message : String) : PyExc :=
  match res modName className with
  | some c => ⟨c.mro, c.modName, message⟩
  | none => createDynamicException className modName message

/-- `JSONSerializer.load` composed with `dict_to_exception`. -/
def serializerLoad (res : Resolver) : Blob → PyVal
  | .prim v => v
  | .excDict cn mn msg => .vexc (safeLoadException res mn cn msg)

/-- C9: decoding the encoded form of an exception yields an exception with the
same message; when resolving the recorded `module.class` succeeds the decoded
exception's type is the resolved class, and otherwise it is a dynamically
created type whose name is `type(e).__name__` and whose message is `str(e)`. -/
theorem c9_exception_roundtrip (res : Resolver) (e : PyExc) :
    ∃ d : PyExc, serializerLoad res (serializerDump (.vexc e)) = .vexc d ∧
      d.message = e.message ∧
      (∀ c, res e.modName (e.mro.headD "") = some c →
        d.mro = c.mro ∧ d.modName = c.modName) ∧
      (res e.modName (e.mro.headD "") = none →
        d.mro = [e.mro.headD "", "Exception", "BaseException", "object"] ∧
        d.modName = e.modName ∧ d.message = e.message) := by
  refine ⟨safeLoadException res e.modName (e.mro.headD "") e.message, rfl, ?_, ?_, ?_⟩
  · unfold safeLoadException
    rcases h : res e.modName (e.mro.headD "") with _ | c
    · rfl
    · rfl
  · intro c hc
    unfold safeLoadException
    rw [hc]
    exact ⟨rfl, rfl⟩
  · intro hc
    unfold safeLoadException
    rw [hc]
    exact ⟨rfl, rfl, rfl⟩

/-- Concrete instantiation of `c9_exception_roundtrip`, with a resolver that
knows `builtins.ValueError` and an unresolvable custom exception. -/
theorem c9_exception_roundtrip_witness :
    (∃ d : PyExc,
      serializerLoad
        (fun m c => if m = "builtins" ∧ c = "ValueError" then
          some ⟨["ValueError", "Exception", "BaseException", "object"], "builtins"⟩
          else none)
        (serializerDump (.vexc ⟨["ValueError", "Exception", "BaseException", "object"],
          "builtins", "boom"⟩)) = .vexc d ∧
      d.message = "boom" ∧
      (∀ c, (fun m c => if m = "builtins" ∧ c = "ValueError" then
          some (⟨["ValueError", "Exception", "BaseException", "object"],
            "builtins"⟩ : ExcClass)
          else none : Resolver) "builtins" "ValueError" = some c →
        d.mro = c.mro ∧ d.modName = c.modName) ∧
      ((fun m c => if m = "builtins" ∧ c = "ValueError" then
          some (⟨["ValueError", "Exception", "BaseException", "object"],
            "builtins"⟩ : ExcClass)
          else none : Resolver) "builtins" "ValueError" = none →
        d.mro = ["ValueError", "Exception", "BaseException", "object"] ∧
        d.modName = "builtins" ∧ d.message = "boom")) :=
  c9_exception_roundtrip
    (fun m c => if m = "builtins" ∧ c = "ValueError" then
      some ⟨["ValueError", "Exception", "BaseException", "object"], "builtins"⟩
      else none)
    ⟨["ValueError", "Exception", "BaseException", "object"], "builtins", "boom"⟩

end SimpleDepCache
